import Mathlib

/-!
# Expression calculator (`src/main.cpp`)

A shallow embedding of the expression-processing pipeline of `src/main.cpp`:
the `Stack` container over `DoublyLinkedList`, the `ExpressionParser` stages
`tokenize`, `validateExpression`, `infixToPostfix` and `evaluatePostfix`, and
one cycle of the interactive loop of `main`.

Conventions of the embedding:

* a `std::string` is a Lean `String`, a `vector<string>` is a `List String`;
* a C++ exception is the `error` branch of `Except`;
* the text a function writes to `cout` is returned as data;
* `double` is IEEE 754 binary64 with round-to-nearest-even (`Double` below);
  the `<cmath>` functions `pow`, `sin`, `cos` are a parameter (`Libm`);
* the `int` parenthesis counter is an unbounded `Int` (signed overflow is
  undefined in C++ and needs more than `2^31` parentheses).
-/

namespace Calc

deriving instance DecidableEq for Except

/-! ## Containers -/

/-- The sequence held by `DoublyLinkedList<T>`, from `head` to `tail`. -/
structure DoublyLinkedList (α : Type) where
  nodes : List α
deriving DecidableEq, Repr

namespace DoublyLinkedList

variable {α : Type}

/-- The constructor: an empty list. -/
def empty : DoublyLinkedList α := ⟨[]⟩

/-- `push_back`: a new node after `tail`. -/
def push_back (l : DoublyLinkedList α) (value : α) : DoublyLinkedList α :=
  ⟨l.nodes ++ [value]⟩

/-- `pop_back`: does nothing on an empty list, otherwise drops `tail`. -/
def pop_back (l : DoublyLinkedList α) : DoublyLinkedList α :=
  match l.nodes with
  | [] => l
  | _ :: _ => ⟨l.nodes.dropLast⟩

/-- `size`. -/
def size (l : DoublyLinkedList α) : Nat := l.nodes.length

/-- `operator[]`: `none` stands for the `out_of_range` exception. -/
def get? (l : DoublyLinkedList α) (index : Nat) : Option α :=
  if index ≥ l.size then none else l.nodes.get? index

end DoublyLinkedList

/-- Exceptions that leave `infixToPostfix` and `evaluatePostfix`; each is a
`std::exception` and is caught in `main`. -/
inductive CalcError where
  /-- `runtime_error("Стек пуст")` of `Stack::pop` and `Stack::top`. -/
  | emptyStack
  /-- `out_of_range("Индекс вне диапазона")` of `DoublyLinkedList::operator[]`. -/
  | indexOutOfRange
  /-- `std::invalid_argument` of `stod`: no conversion could be performed. -/
  | stodInvalidArgument
  /-- `std::out_of_range` of `stod`: the value does not fit a `double`. -/
  | stodOutOfRange
  /-- `runtime_error("Недостаточно операндов для оператора " + token)`. -/
  | insufficientOperandsOperator (token : String)
  /-- `runtime_error("Недостаточно операндов для функции " + token)`. -/
  | insufficientOperandsFunction (token : String)
  /-- `runtime_error("Деление на ноль")`. -/
  | divisionByZero
  /-- `runtime_error("Некорректное выражение")`. -/
  | malformedExpression
  /-- Not an exception: the local `result` would be read uninitialised, which
  happens only if no branch of the operator or function chain matches. -/
  | uninitializedResult
deriving DecidableEq, Repr

/-- `Stack<T>`: a `DoublyLinkedList<T>` whose tail is the top. -/
structure Stack (α : Type) where
  list : DoublyLinkedList α
deriving DecidableEq, Repr

namespace Stack

variable {α : Type}

/-- A default-constructed stack. -/
def empty : Stack α := ⟨DoublyLinkedList.empty⟩

/-- `push`. -/
def push (s : Stack α) (value : α) : Stack α := ⟨s.list.push_back value⟩

/-- `isEmpty`. -/
def isEmpty (s : Stack α) : Bool := s.list.size == 0

/-- `size`. -/
def size (s : Stack α) : Nat := s.list.size

/-- `pop`: the value at index `size - 1` and the stack without it. -/
def pop (s : Stack α) : Except CalcError (α × Stack α) :=
  if s.isEmpty then .error .emptyStack
  else
    match s.list.get? (s.list.size - 1) with
    | none => .error .indexOutOfRange
    | some value => .ok (value, ⟨s.list.pop_back⟩)

/-- `top`: the value at index `size - 1`. -/
def top (s : Stack α) : Except CalcError α :=
  if s.isEmpty then .error .emptyStack
  else
    match s.list.get? (s.list.size - 1) with
    | none => .error .indexOutOfRange
    | some value => .ok value

end Stack

/-! ## Token predicates -/

/-- `isOperator`. -/
def isOperator (token : String) : Bool :=
  token == "+" || token == "-" || token == "*" || token == "/" || token == "^"

/-- `isFunction`. -/
def isFunction (token : String) : Bool :=
  token == "sin" || token == "cos"

/-- `getPrecedence`. -/
def getPrecedence (op : String) : Int :=
  if op == "+" || op == "-" then 1
  else if op == "*" || op == "/" then 2
  else if op == "^" then 3
  else if isFunction op then 4
  else 0

/-- `isdigit` of the C locale. -/
def isdigit (c : Char) : Bool := '0' ≤ c && c ≤ '9'

/-- `isNumber`: no character of the token fails `isdigit`; true of the empty
string. -/
def isNumber (token : String) : Bool := token.data.all isdigit

/-! ## Tokenizer -/

/-- `isspace` of the C locale: the whitespace `operator>>` skips. -/
def isspace (c : Char) : Bool :=
  c == ' ' || c == '\t' || c == '\n' || c == Char.ofNat 11 || c == Char.ofNat 12 || c == '\r'

/-- The `while (ss >> token)` loop over the remaining characters; `cur` holds
the characters of the token being read, last one first. -/
def tokenizeLoop : List Char → List Char → List String
  | [], cur => if cur.isEmpty then [] else [String.mk cur.reverse]
  | c :: cs, cur =>
    if isspace c then
      if cur.isEmpty then tokenizeLoop cs [] else String.mk cur.reverse :: tokenizeLoop cs []
    else tokenizeLoop cs (c :: cur)

/-- `tokenize`. -/
def tokenize (expression : String) : List String := tokenizeLoop expression.data []

/-! ## Validator -/

/-- The message `validateExpression` prints before it returns `false`. -/
inductive ValidationError where
  /-- "Неизвестный токен". -/
  | unknownToken (token : String)
  /-- "Оператор ... в недопустимом положении". -/
  | operatorPosition (token : String)
  /-- "Оператор ... за которым следует недопустимый токен ...". -/
  | operatorFollow (token next : String)
  /-- "Функция ... за этим должны следовать '('". -/
  | functionSyntax (token : String)
  /-- "Несбалансированные скобки". -/
  | unbalancedParentheses
deriving DecidableEq, Repr

/-- The body of the `for` loop of `validateExpression` from index `i` on:
`size` is `tokens.size()`, the list is `tokens[i], tokens[i+1], ...`. The
result is the message of the first `return false`, or the final
`bracketBalance`. -/
def validateLoop (size : Nat) : Nat → Int → List String → Except ValidationError Int
  | _, bracketBalance, [] => .ok bracketBalance
  | i, bracketBalance, token :: rest =>
    if !isNumber token && !isOperator token && !isFunction token &&
        token != "(" && token != ")" then
      .error (.unknownToken token)
    else
      let bracketBalance :=
        if token == "(" then bracketBalance + 1
        else if token == ")" then bracketBalance - 1
        else bracketBalance
      if isOperator token && (i == 0 || i == size - 1) then
        .error (.operatorPosition token)
      else if isOperator token &&
          (isOperator (rest.headD "") || rest.headD "" == ")") then
        .error (.operatorFollow token (rest.headD ""))
      else if isFunction token && (i == size - 1 || rest.headD "" != "(") then
        .error (.functionSyntax token)
      else validateLoop size (i + 1) bracketBalance rest

/-- `validateExpression`: `ok ()` is `return true`; `error e` is the message
printed before `return false`. -/
def validateExpression (tokens : List String) : Except ValidationError Unit :=
  match validateLoop tokens.length 0 0 tokens with
  | .error e => .error e
  | .ok bracketBalance =>
    if bracketBalance != 0 then .error .unbalancedParentheses else .ok ()

/-! ## IEEE 754 binary64 -/

/-- A `double`: `finite negative m e` is `(-1)^negative * m * 2^e`. The
arithmetic below only builds canonical values: `m < 2^53`,
`-1074 ≤ e ≤ 971`, `2^52 ≤ m` unless `e = -1074`, and zero is
`finite negative 0 0`. -/
inductive Double where
  | finite (negative : Bool) (m : Nat) (e : Int)
  | infinity (negative : Bool)
  | nan
deriving DecidableEq, Repr

namespace Double

/-- Halving `n` until it is below 2, at most `fuel` times. -/
def log2Loop : Nat → Nat → Nat
  | 0, _ => 0
  | fuel + 1, n => if n < 2 then 0 else log2Loop fuel (n / 2) + 1

/-- The integer part of the binary logarithm of `n`, for `0 < n`. -/
def log2 (n : Nat) : Nat := log2Loop n n

/-- Whether `2^k ≤ n / d`. -/
def geTwoPow (n d : Nat) (k : Int) : Bool :=
  if 0 ≤ k then d * 2 ^ k.toNat ≤ n else d ≤ n * 2 ^ (-k).toNat

/-- Signed zero. -/
def zero (negative : Bool) : Double := .finite negative 0 0

/-- The binary64 value nearest to `(-1)^negative * n / d` (for `0 < d`), ties
to the even significand, overflowing to infinity. -/
def round (negative : Bool) (n d : Nat) : Double :=
  if n = 0 then zero negative
  else
    let k : Int := (log2 n : Int) - (log2 d : Int)
    let q : Int := if geTwoPow n d k then k else k - 1
    let e : Int := max (q - 52) (-1074)
    let num : Nat := n * 2 ^ (-e).toNat
    let den : Nat := d * 2 ^ e.toNat
    let m0 : Nat := num / den
    let r : Nat := num % den
    let m : Nat := if den < 2 * r ∨ (2 * r = den ∧ m0 % 2 = 1) then m0 + 1 else m0
    let e : Int := if m = 2 ^ 53 then e + 1 else e
    let m : Nat := if m = 2 ^ 53 then 2 ^ 52 else m
    if 971 < e then .infinity negative
    else if m = 0 then zero negative
    else .finite negative m e

/-- The conversion of a natural number. -/
def ofNat (n : Nat) : Double := round false n 1

/-- The comparison `x == 0`: true of both zeros, false of NaN. -/
def isZero : Double → Bool
  | .finite _ m _ => m == 0
  | _ => false

/-- Unary minus. -/
def neg : Double → Double
  | .finite s m e => .finite (!s) m e
  | .infinity s => .infinity (!s)
  | .nan => .nan

/-- The integer `(-1)^negative * m`. -/
def signed (negative : Bool) (m : Nat) : Int := if negative then -(m : Int) else m

/-- The sum `a + b`. -/
def add : Double → Double → Double
  | .nan, _ => .nan
  | _, .nan => .nan
  | .infinity s1, .infinity s2 => if s1 = s2 then .infinity s1 else .nan
  | .infinity s1, .finite _ _ _ => .infinity s1
  | .finite _ _ _, .infinity s2 => .infinity s2
  | .finite s1 m1 e1, .finite s2 m2 e2 =>
    let e : Int := min e1 e2
    let x : Int := signed s1 (m1 * 2 ^ (e1 - e).toNat) + signed s2 (m2 * 2 ^ (e2 - e).toNat)
    if x = 0 then zero (s1 && s2)
    else round (decide (x < 0)) (x.natAbs * 2 ^ e.toNat) (2 ^ (-e).toNat)

/-- The difference `a - b`. -/
def sub (a b : Double) : Double := add a (neg b)

/-- The product `a * b`. -/
def mul : Double → Double → Double
  | .nan, _ => .nan
  | _, .nan => .nan
  | .infinity s1, .infinity s2 => .infinity (s1 != s2)
  | .infinity s1, .finite s2 m2 _ => if m2 = 0 then .nan else .infinity (s1 != s2)
  | .finite s1 m1 _, .infinity s2 => if m1 = 0 then .nan else .infinity (s1 != s2)
  | .finite s1 m1 e1, .finite s2 m2 e2 =>
    round (s1 != s2) (m1 * m2 * 2 ^ (e1 + e2).toNat) (2 ^ (-(e1 + e2)).toNat)

/-- The quotient `a / b`. -/
def div : Double → Double → Double
  | .nan, _ => .nan
  | _, .nan => .nan
  | .infinity _, .infinity _ => .nan
  | .infinity s1, .finite s2 _ _ => .infinity (s1 != s2)
  | .finite s1 _ _, .infinity s2 => zero (s1 != s2)
  | .finite s1 m1 e1, .finite s2 m2 e2 =>
    if m2 = 0 then
      if m1 = 0 then .nan else .infinity (s1 != s2)
    else round (s1 != s2) (m1 * 2 ^ (e1 - e2).toNat) (m2 * 2 ^ (e2 - e1).toNat)

end Double

/-- The value of a string of decimal digits. -/
def decimalValue (digits : List Char) : Nat :=
  digits.foldl (fun acc c => 10 * acc + (c.toNat - 48)) 0

/-- `std::stod` on the strings `evaluatePostfix` passes to it, those for which
`isNumber` holds: the empty string converts nothing (`invalid_argument`), a
value that rounds beyond the largest `double` is `out_of_range`, any other
digit string is correctly rounded. Strings with other characters are never
passed and are reported as `invalid_argument` here. -/
def stod (token : String) : Except CalcError Double :=
  if token.data.isEmpty || !isNumber token then .error .stodInvalidArgument
  else
    match Double.ofNat (decimalValue token.data) with
    | .infinity _ => .error .stodOutOfRange
    | value => .ok value

/-- The `<cmath>` functions the evaluator calls. They are not part of the
program; the evaluator is stated for every choice of them. -/
structure Libm where
  pow : Double → Double → Double
  sin : Double → Double
  cos : Double → Double

/-! ## Infix to postfix -/

/-- The loop `while (!stack.isEmpty() && stack.top() != "(")
output.push_back(stack.pop());`. Each round pops one entry, so `fuel` is the
size of the stack at loop entry. -/
def popUntilParen : Nat → List String → Stack String →
    Except CalcError (List String × Stack String)
  | 0, output, stack => .ok (output, stack)
  | fuel + 1, output, stack =>
    if stack.isEmpty then .ok (output, stack)
    else
      match stack.top with
      | .error e => .error e
      | .ok t =>
        if t != "(" then
          match stack.pop with
          | .error e => .error e
          | .ok (value, stack) => popUntilParen fuel (output ++ [value]) stack
        else .ok (output, stack)

/-- The loop `while (!stack.isEmpty() && isOperator(stack.top()) &&
getPrecedence(stack.top()) >= getPrecedence(token))
output.push_back(stack.pop());`, with `fuel` the size of the stack at loop
entry. -/
def popOperators (token : String) : Nat → List String → Stack String →
    Except CalcError (List String × Stack String)
  | 0, output, stack => .ok (output, stack)
  | fuel + 1, output, stack =>
    if stack.isEmpty then .ok (output, stack)
    else
      match stack.top with
      | .error e => .error e
      | .ok t =>
        if isOperator t && decide (getPrecedence t ≥ getPrecedence token) then
          match stack.pop with
          | .error e => .error e
          | .ok (value, stack) => popOperators token fuel (output ++ [value]) stack
        else .ok (output, stack)

/-- The loop `while (!stack.isEmpty()) output.push_back(stack.pop());`, with
`fuel` the size of the stack at loop entry. -/
def popAll : Nat → List String → Stack String →
    Except CalcError (List String × Stack String)
  | 0, output, stack => .ok (output, stack)
  | fuel + 1, output, stack =>
    if stack.isEmpty then .ok (output, stack)
    else
      match stack.pop with
      | .error e => .error e
      | .ok (value, stack) => popAll fuel (output ++ [value]) stack

/-- The `for (const string& token : tokens)` loop of `infixToPostfix` over the
remaining tokens. -/
def convertLoop : List String → List String → Stack String →
    Except CalcError (List String × Stack String)
  | [], output, stack => .ok (output, stack)
  | token :: rest, output, stack =>
    if isNumber token then convertLoop rest (output ++ [token]) stack
    else if isFunction token then convertLoop rest output (stack.push token)
    else if token == "(" then convertLoop rest output (stack.push token)
    else if token == ")" then
      match popUntilParen stack.size output stack with
      | .error e => .error e
      | .ok (output, stack) =>
        match stack.pop with
        | .error e => .error e
        | .ok (_, stack) =>
          if stack.isEmpty then convertLoop rest output stack
          else
            match stack.top with
            | .error e => .error e
            | .ok t =>
              if isFunction t then
                match stack.pop with
                | .error e => .error e
                | .ok (value, stack) => convertLoop rest (output ++ [value]) stack
              else convertLoop rest output stack
    else if isOperator token then
      match popOperators token stack.size output stack with
      | .error e => .error e
      | .ok (output, stack) => convertLoop rest output (stack.push token)
    else convertLoop rest output stack

/-- `infixToPostfix`. -/
def infixToPostfix (tokens : List String) : Except CalcError (List String) :=
  match convertLoop tokens [] Stack.empty with
  | .error e => .error e
  | .ok (output, stack) =>
    match popAll stack.size output stack with
    | .error e => .error e
    | .ok (output, _) => .ok output

/-! ## Postfix evaluation -/

/-- The `if`/`else if` chain that computes `result` for a binary operator. -/
def applyOperator (L : Libm) (token : String) (a b : Double) : Except CalcError Double :=
  if token == "+" then .ok (a.add b)
  else if token == "-" then .ok (a.sub b)
  else if token == "*" then .ok (a.mul b)
  else if token == "/" then
    if b.isZero then .error .divisionByZero else .ok (a.div b)
  else if token == "^" then .ok (L.pow a b)
  else .error .uninitializedResult

/-- The `if`/`else if` chain that computes `result` for a function. -/
def applyFunction (L : Libm) (token : String) (a : Double) : Except CalcError Double :=
  if token == "sin" then .ok (L.sin a)
  else if token == "cos" then .ok (L.cos a)
  else .error .uninitializedResult

/-- The `for (const string& token : postfix)` loop of `evaluatePostfix` over
the remaining tokens. -/
def evaluateLoop (L : Libm) : List String → Stack Double → Except CalcError (Stack Double)
  | [], stack => .ok stack
  | token :: rest, stack =>
    if isNumber token then
      match stod token with
      | .error e => .error e
      | .ok value => evaluateLoop L rest (stack.push value)
    else if isOperator token then
      if stack.size < 2 then .error (.insufficientOperandsOperator token)
      else
        match stack.pop with
        | .error e => .error e
        | .ok (b, stack) =>
          match stack.pop with
          | .error e => .error e
          | .ok (a, stack) =>
            match applyOperator L token a b with
            | .error e => .error e
            | .ok result => evaluateLoop L rest (stack.push result)
    else if isFunction token then
      if stack.size < 1 then .error (.insufficientOperandsFunction token)
      else
        match stack.pop with
        | .error e => .error e
        | .ok (a, stack) =>
          match applyFunction L token a with
          | .error e => .error e
          | .ok result => evaluateLoop L rest (stack.push result)
    else evaluateLoop L rest stack

/-- `evaluatePostfix`. -/
def evaluatePostfix (L : Libm) (tokens : List String) : Except CalcError Double :=
  match evaluateLoop L tokens Stack.empty with
  | .error e => .error e
  | .ok stack =>
    if stack.size != 1 then .error .malformedExpression
    else
      match stack.pop with
      | .error e => .error e
      | .ok (value, _) => .ok value

/-! ## One cycle of `main` -/

/-- A line written to `cout` after the input line was read. -/
inductive Printed where
  /-- "Ошибка: Пустое выражение". -/
  | emptyExpression
  /-- The message of `validateExpression`. -/
  | validation (e : ValidationError)
  /-- "Ошибка: " followed by `e.what()` in the `catch` block. -/
  | exception (e : CalcError)
  /-- "Постфиксная запись: " followed by the postfix tokens. -/
  | postfixLine (tokens : List String)
  /-- "Результат: " followed by the value. -/
  | result (value : Double)
deriving DecidableEq, Repr

/-- How one pass through the body of `while (true)` ends. -/
inductive Cycle where
  /-- The `break` on the line `exit`. -/
  | exit
  /-- The loop goes on to the next line, having written `printed`. -/
  | next (printed : List Printed)
deriving DecidableEq, Repr

/-- The body of the `while (true)` loop of `main` for the line `input` that
`getline` read (the prompt written before reading is not part of `printed`). -/
def mainCycle (L : Libm) (input : String) : Cycle :=
  if input == "exit" then .exit
  else if input.data.isEmpty then .next []
  else
    let tokens := tokenize input
    if tokens.isEmpty then .next [.emptyExpression]
    else
      match validateExpression tokens with
      | .error e => .next [.validation e]
      | .ok _ =>
        match infixToPostfix tokens with
        | .error e => .next [.exception e]
        | .ok output =>
          match evaluatePostfix L output with
          | .error e => .next [.exception e]
          | .ok result => .next [.postfixLine output, .result result]

/-! ## A math library for instantiating the theorems -/

/-- The natural number a `double` denotes, when it denotes one. -/
def Double.toNat? : Double → Option Nat
  | .finite false m e =>
    if 0 ≤ e then some (m * 2 ^ e.toNat)
    else if m % 2 ^ (-e).toNat = 0 then some (m / 2 ^ (-e).toNat) else none
  | _ => none

/-- A math library that is correctly rounded where the exact result is
rational and easy to compute (a finite base to a natural power, sine and
cosine of zero) and NaN elsewhere. The theorems hold for every `Libm`; this
one shows that their assumptions on the library can be met. -/
def sampleLibm : Libm where
  pow a b :=
    match a, b.toNat? with
    | .finite s m e, some n =>
      Double.round (s && n % 2 == 1) (m ^ n * 2 ^ (e * n).toNat) (2 ^ (-(e * n)).toNat)
    | _, _ => .nan
  sin a := if a.isZero then a else .nan
  cos a := if a.isZero then Double.ofNat 1 else .nan

/-- The decimal numeral of `10^309`, a one followed by 309 zeros: a
digit-only token beyond the range of `double`. -/
def hugeNumber : String := String.mk ('1' :: List.replicate 309 '0')

/-! ## The validator against the rules of the specification -/

/-- A digit-only token: every character is one of `0` to `9`. -/
def DigitOnly (t : String) : Prop := ∀ c ∈ t.data, '0' ≤ c ∧ c ≤ '9'

/-- One of the five operators. -/
def IsOp (t : String) : Prop := t = "+" ∨ t = "-" ∨ t = "*" ∨ t = "/" ∨ t = "^"

/-- One of the two functions. -/
def IsFn (t : String) : Prop := t = "sin" ∨ t = "cos"

/-- Rule 1 for one token: a number, an operator, a function or a parenthesis. -/
def Legal (t : String) : Prop := DigitOnly t ∨ IsOp t ∨ IsFn t ∨ t = "(" ∨ t = ")"

instance (t : String) : Decidable (DigitOnly t) := by unfold DigitOnly; infer_instance

instance (t : String) : Decidable (IsOp t) := by unfold IsOp; infer_instance

instance (t : String) : Decidable (IsFn t) := by unfold IsFn; infer_instance

instance (t : String) : Decidable (Legal t) := by unfold Legal; infer_instance

/-- (a) every token is legal. -/
def AllLegal (tokens : List String) : Prop := ∀ t ∈ tokens, Legal t

/-- (b) no operator is the first or the last token. -/
def NoEdgeOperator (tokens : List String) : Prop :=
  ∀ i t, tokens[i]? = some t → IsOp t → i ≠ 0 ∧ i + 1 ≠ tokens.length

/-- (c) no operator is immediately followed by an operator or by `)`. -/
def NoBadFollower (tokens : List String) : Prop :=
  ∀ i t u, tokens[i]? = some t → tokens[i + 1]? = some u → IsOp t → ¬IsOp u ∧ u ≠ ")"

/-- (d) every function has a next token, and it is `(`. -/
def FunctionsCalled (tokens : List String) : Prop :=
  ∀ i t, tokens[i]? = some t → IsFn t → tokens[i + 1]? = some "("

/-- (e) as many `(` as `)`. -/
def Balanced (tokens : List String) : Prop := tokens.count "(" = tokens.count ")"

/-- The rules 1, 3 and 4 of the validator at one token, in that order of
priority: `isFirst` tells whether the token is the first one, `next` is the
token after it, if any. The result is the message of the first rule the
token breaks. -/
def tokenCheck (isFirst : Bool) (t : String) (next : Option String) : Option ValidationError :=
  if ¬Legal t then some (.unknownToken t)
  else if IsOp t ∧ (isFirst = true ∨ next = none) then some (.operatorPosition t)
  else
    match next with
    | none => if IsFn t then some (.functionSyntax t) else none
    | some u =>
      if IsOp t ∧ (IsOp u ∨ u = ")") then some (.operatorFollow t u)
      else if IsFn t ∧ u ≠ "(" then some (.functionSyntax t)
      else none

/-- The message of the first rule that the token at index `i` breaks, if it
breaks one. -/
def violationAt (tokens : List String) (i : Nat) : Option ValidationError :=
  match tokens[i]? with
  | none => none
  | some t => tokenCheck (i == 0) t tokens[i + 1]?

/-- The change of `bracketBalance` at one token. -/
def delta (t : String) : Int := if t = "(" then 1 else if t = ")" then -1 else 0

/-- The net parenthesis count of a sequence. -/
def depth : List String → Int
  | [] => 0
  | t :: rest => delta t + depth rest

/-- The scan for the first token that breaks a rule. -/
def scan : Bool → List String → Option ValidationError
  | _, [] => none
  | isFirst, t :: rest =>
    match tokenCheck isFirst t rest.head? with
    | some e => some e
    | none => scan false rest

/-- The check of the token at index `k` of `l`, where `l` starts the whole
sequence when `first` holds. -/
def checkAt (first : Bool) (l : List String) (k : Nat) : Option ValidationError :=
  match l[k]? with
  | none => none
  | some t => tokenCheck (first && k == 0) t l[k + 1]?

instance (tokens : List String) : Decidable (Balanced tokens) := by
  unfold Balanced; infer_instance

/-! ## The stack and the evaluator on lists

The entries of a `Stack` listed from the top, and the loop of
`evaluatePostfix` restated on such lists; `evaluateLoop_eq_evaluateList`
relates the two. -/

/-- The stack whose entries are `l`, the top first. -/
def Stack.ofTopFirst {α : Type} (l : List α) : Stack α := ⟨⟨l.reverse⟩⟩

/-- The body of the loop of `evaluatePostfix` for one token, on the list of
stack entries, top first. -/
def evaluateStep (L : Libm) (token : String) (l : List Double) :
    Except CalcError (List Double) :=
  if isNumber token then
    match stod token with
    | .error e => .error e
    | .ok value => .ok (value :: l)
  else if isOperator token then
    match l with
    | b :: a :: below =>
      match applyOperator L token a b with
      | .error e => .error e
      | .ok result => .ok (result :: below)
    | _ => .error (.insufficientOperandsOperator token)
  else if isFunction token then
    match l with
    | a :: below =>
      match applyFunction L token a with
      | .error e => .error e
      | .ok result => .ok (result :: below)
    | [] => .error (.insufficientOperandsFunction token)
  else .ok l

/-- The loop of `evaluatePostfix` on the list of stack entries, top first. -/
def evaluateList (L : Libm) : List String → List Double → Except CalcError (List Double)
  | [], l => .ok l
  | token :: rest, l =>
    match evaluateStep L token l with
    | .error e => .error e
    | .ok l' => evaluateList L rest l'

/-- The exceptions `evaluatePostfix` can throw while it consumes tokens. -/
def CalcError.isOperandError : CalcError → Prop
  | .stodInvalidArgument => True
  | .stodOutOfRange => True
  | .insufficientOperandsOperator _ => True
  | .insufficientOperandsFunction _ => True
  | .divisionByZero => True
  | _ => False

/-! ## The converter on lists

The loop of `infixToPostfix` restated on the list of stack entries, top
first; `convertLoop_eq_convertList` relates the two. -/

/-- The test of the pop loop for the operator `token`: an operator of at least
its precedence. -/
def yields (token t : String) : Bool :=
  isOperator t && decide (getPrecedence t ≥ getPrecedence token)

/-- The body of the loop of `infixToPostfix` for one token, on the output and
the list of stack entries, top first. -/
def convertStep (token : String) (output l : List String) :
    Except CalcError (List String × List String) :=
  if isNumber token then .ok (output ++ [token], l)
  else if isFunction token then .ok (output, token :: l)
  else if token == "(" then .ok (output, token :: l)
  else if token == ")" then
    match l.dropWhile (fun t => t != "(") with
    | [] => .error .emptyStack
    | _ :: [] => .ok (output ++ l.takeWhile (fun t => t != "("), [])
    | _ :: f :: below =>
      if isFunction f then .ok (output ++ l.takeWhile (fun t => t != "(") ++ [f], below)
      else .ok (output ++ l.takeWhile (fun t => t != "("), f :: below)
  else if isOperator token then
    .ok (output ++ l.takeWhile (yields token), token :: l.dropWhile (yields token))
  else .ok (output, l)

/-- The loop of `infixToPostfix` on the output and the list of stack entries,
top first. -/
def convertList : List String → List String → List String →
    Except CalcError (List String × List String)
  | [], output, l => .ok (output, l)
  | token :: rest, output, l =>
    match convertStep token output l with
    | .error e => .error e
    | .ok (output, l) => convertList rest output l

/-- The outcomes the specification names: the empty-stack, number-parse,
insufficient-operands, division-by-zero and malformed-expression errors. -/
def CalcError.isNamed : CalcError → Prop
  | .emptyStack => True
  | .stodInvalidArgument => True
  | .stodOutOfRange => True
  | .insufficientOperandsOperator _ => True
  | .insufficientOperandsFunction _ => True
  | .divisionByZero => True
  | .malformedExpression => True
  | .indexOutOfRange => False
  | .uninitializedResult => False

/-! ## Sequences of stack operations -/

/-- The stack after `push` of each of `values` in turn, starting from `s`. -/
def Stack.pushAll {α : Type} (s : Stack α) (values : List α) : Stack α :=
  values.foldl Stack.push s

/-- The outcome of `n` successive calls of `pop`: the values returned, in the
order of the calls, and the stack left. -/
def Stack.popN {α : Type} : Nat → Stack α → Except CalcError (List α × Stack α)
  | 0, s => .ok ([], s)
  | n + 1, s =>
    match s.pop with
    | .error e => .error e
    | .ok (v, s') =>
      match Stack.popN n s' with
      | .error e => .error e
      | .ok (vs, s'') => .ok (v :: vs, s'')

/-! ## Words of a line -/

/-- A token as the tokenizer produces them: not empty and free of whitespace. -/
def IsWord (t : String) : Prop := t.data ≠ [] ∧ ∀ c ∈ t.data, isspace c = false

/-! ## Expression trees -/

/-- An expression tree: a number token, a binary operator over two trees, or
a function applied to a tree. -/
inductive Expr where
  | number (n : String)
  | binary (op : String) (l r : Expr)
  | call (f : String) (a : Expr)
deriving DecidableEq, Repr

namespace Expr

/-- The tree is over digit-only numbers, the operators `+ - * / ^` and the
functions `sin`, `cos`. -/
def WellFormed : Expr → Prop
  | number n => DigitOnly n
  | binary op l r => IsOp op ∧ l.WellFormed ∧ r.WellFormed
  | call f a => IsFn f ∧ a.WellFormed

/-- The fully parenthesized tokens of the tree. -/
def render : Expr → List String
  | number n => [n]
  | binary op l r => ["("] ++ l.render ++ [op] ++ r.render ++ [")"]
  | call f a => [f, "("] ++ a.render ++ [")"]

/-- The post-order traversal: operands before their operator or function. -/
def postorder : Expr → List String
  | number n => [n]
  | binary op l r => l.postorder ++ r.postorder ++ [op]
  | call f a => a.postorder ++ [f]

end Expr

/-- The stack top is not a function: the stack is empty or its top is not
one. -/
def TopNotFunction (l : List String) : Prop :=
  ∀ t below, l = t :: below → isFunction t = false

/-! ## What the converter keeps -/

/-- Neither `(` nor `)`. -/
def notParen (t : String) : Bool := t != "(" && t != ")"

/-- The state of the converter loop is sound: no `)` and no number on the
stack, no parenthesis in the output. -/
def SoundState (output l : List String) : Prop :=
  (∀ t ∈ l, t ≠ ")" ∧ isNumber t = false) ∧ ∀ t ∈ output, t ≠ "(" ∧ t ≠ ")"

/-! ## Basic facts about the token predicates -/

theorem isOperator_iff (t : String) :
    isOperator t = true ↔ t = "+" ∨ t = "-" ∨ t = "*" ∨ t = "/" ∨ t = "^" := by
  simp [isOperator, or_assoc]

theorem isFunction_iff (t : String) : isFunction t = true ↔ t = "sin" ∨ t = "cos" := by
  simp [isFunction]

theorem isNumber_false_of_isOperator {t : String} (h : isOperator t = true) :
    isNumber t = false := by
  rcases (isOperator_iff t).1 h with h | h | h | h | h <;> subst h <;> decide

theorem isNumber_false_of_isFunction {t : String} (h : isFunction t = true) :
    isNumber t = false := by
  rcases (isFunction_iff t).1 h with h | h <;> subst h <;> decide

theorem isFunction_false_of_isOperator {t : String} (h : isOperator t = true) :
    isFunction t = false := by
  rcases (isOperator_iff t).1 h with h | h | h | h | h <;> subst h <;> decide

theorem isOperator_false_of_isNumber {t : String} (h : isNumber t = true) :
    isOperator t = false := by
  cases h' : isOperator t
  · rfl
  · rw [isNumber_false_of_isOperator h'] at h; cases h

theorem isFunction_false_of_isNumber {t : String} (h : isNumber t = true) :
    isFunction t = false := by
  cases h' : isFunction t
  · rfl
  · rw [isNumber_false_of_isFunction h'] at h; cases h

theorem ne_paren_of_isNumber {t : String} (h : isNumber t = true) : t ≠ "(" ∧ t ≠ ")" := by
  constructor <;> (intro h'; subst h'; revert h; decide)

theorem ne_paren_of_isOperator {t : String} (h : isOperator t = true) : t ≠ "(" ∧ t ≠ ")" := by
  constructor <;> (intro h'; subst h'; revert h; decide)

theorem ne_paren_of_isFunction {t : String} (h : isFunction t = true) : t ≠ "(" ∧ t ≠ ")" := by
  constructor <;> (intro h'; subst h'; revert h; decide)

/-! ## The stack and the fuel of the pop loops

Each pop loop of `infixToPostfix` is run with the size of the stack as fuel.
The lemmas `popAll_fuel`, `popUntilParen_fuel` and `popOperators_fuel` show
that this never cuts a loop short: any larger fuel gives the same result. -/

theorem Stack.isEmpty_iff_size {α : Type} (s : Stack α) : s.isEmpty = true ↔ s.size = 0 := by
  simp [Stack.isEmpty, Stack.size]

theorem Stack.size_of_pop {α : Type} {s s' : Stack α} {v : α} (h : s.pop = .ok (v, s')) :
    s'.size + 1 = s.size := by
  unfold Stack.pop at h
  by_cases he : s.isEmpty = true
  · simp [he] at h
  · simp only [he] at h
    cases hg : s.list.get? (s.list.size - 1) with
    | none => simp [hg] at h
    | some value =>
      simp only [hg, Bool.false_eq_true, ↓reduceIte, Except.ok.injEq, Prod.mk.injEq] at h
      obtain ⟨-, rfl⟩ := h
      have hne : s.list.nodes ≠ [] := by
        intro hnil
        apply he
        simp [Stack.isEmpty, DoublyLinkedList.size, hnil]
      cases hn : s.list.nodes with
      | nil => exact absurd hn hne
      | cons a l =>
        simp [Stack.size, DoublyLinkedList.size, DoublyLinkedList.pop_back, hn]

theorem popAll_fuel (fuel : Nat) :
    ∀ (output : List String) (stack : Stack String), stack.size ≤ fuel →
      popAll fuel output stack = popAll stack.size output stack := by
  induction fuel with
  | zero =>
    intro output stack h
    have : stack.size = 0 := Nat.le_zero.1 h
    rw [this]
  | succ fuel ih =>
    intro output stack h
    cases hs : stack.size with
    | zero =>
      have he : stack.isEmpty = true := (Stack.isEmpty_iff_size stack).2 hs
      simp [popAll, he]
    | succ n =>
      have he : stack.isEmpty = false := by
        cases hb : stack.isEmpty
        · rfl
        · rw [(Stack.isEmpty_iff_size stack).1 hb] at hs; cases hs
      simp only [popAll, he]
      cases hp : stack.pop with
      | error e => rfl
      | ok r =>
        obtain ⟨v, s'⟩ := r
        have hsz := Stack.size_of_pop hp
        have hn : s'.size = n := by omega
        simp only [Bool.false_eq_true, ↓reduceIte]
        rw [ih _ s' (by omega), hn]


theorem popUntilParen_fuel (fuel : Nat) :
    ∀ (output : List String) (stack : Stack String), stack.size ≤ fuel →
      popUntilParen fuel output stack = popUntilParen stack.size output stack := by
  induction fuel with
  | zero =>
    intro output stack h
    have : stack.size = 0 := Nat.le_zero.1 h
    rw [this]
  | succ fuel ih =>
    intro output stack h
    cases hs : stack.size with
    | zero =>
      have he : stack.isEmpty = true := (Stack.isEmpty_iff_size stack).2 hs
      simp [popUntilParen, he]
    | succ n =>
      have he : stack.isEmpty = false := by
        cases hb : stack.isEmpty
        · rfl
        · rw [(Stack.isEmpty_iff_size stack).1 hb] at hs; cases hs
      simp only [popUntilParen, he]
      cases ht : stack.top with
      | error e => rfl
      | ok t =>
        simp only [Bool.false_eq_true, ↓reduceIte]
        split
        · cases hp : stack.pop with
          | error e => rfl
          | ok r =>
            obtain ⟨v, s'⟩ := r
            have hsz := Stack.size_of_pop hp
            have hn : s'.size = n := by omega
            simp only
            rw [ih _ s' (by omega), hn]
        · rfl

theorem popOperators_fuel (token : String) (fuel : Nat) :
    ∀ (output : List String) (stack : Stack String), stack.size ≤ fuel →
      popOperators token fuel output stack = popOperators token stack.size output stack := by
  induction fuel with
  | zero =>
    intro output stack h
    have : stack.size = 0 := Nat.le_zero.1 h
    rw [this]
  | succ fuel ih =>
    intro output stack h
    cases hs : stack.size with
    | zero =>
      have he : stack.isEmpty = true := (Stack.isEmpty_iff_size stack).2 hs
      simp [popOperators, he]
    | succ n =>
      have he : stack.isEmpty = false := by
        cases hb : stack.isEmpty
        · rfl
        · rw [(Stack.isEmpty_iff_size stack).1 hb] at hs; cases hs
      simp only [popOperators, he]
      cases ht : stack.top with
      | error e => rfl
      | ok t =>
        simp only [Bool.false_eq_true, ↓reduceIte]
        split
        · cases hp : stack.pop with
          | error e => rfl
          | ok r =>
            obtain ⟨v, s'⟩ := r
            have hsz := Stack.size_of_pop hp
            have hn : s'.size = n := by omega
            simp only
            rw [ih _ s' (by omega), hn]
        · rfl

/-! ## Worked scenarios -/

set_option maxRecDepth 100000 in
/-- C1: the line `3 + 4 * 2` tokenizes to five tokens, passes validation,
converts to the postfix sequence `3 4 2 * +`, and that sequence evaluates to
the double 11, whatever the math library. -/
theorem precedence_round_trip (L : Libm) :
    tokenize "3 + 4 * 2" = ["3", "+", "4", "*", "2"] ∧
    validateExpression ["3", "+", "4", "*", "2"] = .ok () ∧
    infixToPostfix ["3", "+", "4", "*", "2"] = .ok ["3", "4", "2", "*", "+"] ∧
    evaluatePostfix L ["3", "4", "2", "*", "+"] = .ok (Double.ofNat 11) := by
  refine ⟨by decide, by decide, by decide, ?_⟩
  rfl

/-- C2, as stated, fails: `infixToPostfix` does not turn `2 ^ 3 ^ 2` into
`2 3 2 ^ ^`. -/
theorem power_postfix_counterexample :
    infixToPostfix ["2", "^", "3", "^", "2"] ≠ .ok ["2", "3", "2", "^", "^"] := by
  decide

/-- C2, amended: `infixToPostfix` turns `2 ^ 3 ^ 2` into `2 3 ^ 2 ^`, the
first `^` leaving the stack when the second one arrives. -/
theorem power_postfix :
    infixToPostfix ["2", "^", "3", "^", "2"] = .ok ["2", "3", "^", "2", "^"] := by
  decide

/-- C9: `) (` is accepted by `validateExpression`, and `infixToPostfix` fails
on it with the empty-stack exception of `Stack::pop`. -/
theorem lenient_balance :
    validateExpression [")", "("] = .ok () ∧
    infixToPostfix [")", "("] = .error .emptyStack := by
  decide

/-- C7: with numbers `a`, `b` and operators `o1`, `o2`, the sequence
`a o1 o2 b` is rejected with the operator-follow message naming `o1` and
`o2`, and `( a o1 )` with the one naming `o1` and `)`. -/
theorem operator_adjacency (a b o1 o2 : String) (ha : isNumber a = true)
    (_hb : isNumber b = true) (h1 : isOperator o1 = true) (h2 : isOperator o2 = true) :
    validateExpression [a, o1, o2, b] = .error (.operatorFollow o1 o2) ∧
    validateExpression ["(", a, o1, ")"] = .error (.operatorFollow o1 ")") := by
  have hoa := isOperator_false_of_isNumber ha
  have hfa := isFunction_false_of_isNumber ha
  constructor
  · simp [validateExpression, validateLoop, ha, h1, h2, hoa, hfa]
  · have e1 : isNumber "(" = false := by decide
    have e2 : isOperator "(" = false := by decide
    have e3 : isFunction "(" = false := by decide
    simp [validateExpression, validateLoop, ha, h1, hoa, hfa, e1, e2, e3]

/-- Witness of C7: `1 + + 2` and `( 1 + )`. -/
theorem operator_adjacency_witness :
    validateExpression ["1", "+", "+", "2"] = .error (.operatorFollow "+" "+") ∧
    validateExpression ["(", "1", "+", ")"] = .error (.operatorFollow "+" ")") :=
  operator_adjacency "1" "2" "+" "+" (by decide) (by decide) (by decide) (by decide)

/-! ## Number conversion -/

theorem isNumber_of_stod {t : String} {x : Double} (h : stod t = .ok x) :
    isNumber t = true := by
  unfold stod at h
  cases hn : isNumber t
  · simp [hn] at h
  · rfl

theorem stod_hugeNumber : stod hugeNumber = .error .stodOutOfRange := by
  decide!

theorem isNumber_hugeNumber : isNumber hugeNumber = true := by
  decide!

theorem decimalValue_zeros (digits : List Char) (h : ∀ c ∈ digits, c = '0') (acc : Nat) :
    digits.foldl (fun acc c => 10 * acc + (c.toNat - 48)) acc =
      10 ^ digits.length * acc := by
  induction digits generalizing acc with
  | nil => simp
  | cons c cs ih =>
    have hc : c = '0' := h c (List.mem_cons_self _ _)
    have hcs : ∀ d ∈ cs, d = '0' := fun d hd => h d (List.mem_cons_of_mem _ hd)
    subst hc
    have h0 : ('0' : Char).toNat - 48 = 0 := by decide
    simp only [List.foldl_cons, List.length_cons, h0, Nat.add_zero]
    rw [ih hcs, pow_succ]
    ring

theorem stod_zeros (z : String) (hne : z.data ≠ []) (h : ∀ c ∈ z.data, c = '0') :
    stod z = .ok (Double.ofNat 0) := by
  have hnum : isNumber z = true := by
    simp only [isNumber, List.all_eq_true]
    intro c hc
    rw [h c hc]
    decide
  have hval : decimalValue z.data = 0 := by
    unfold decimalValue
    rw [decimalValue_zeros z.data h 0]
    simp
  have hemp : z.data.isEmpty = false := by
    cases hz : z.data with
    | nil => exact absurd hz hne
    | cons _ _ => rfl
  unfold stod
  rw [hemp, hnum, hval]
  rfl

theorem evaluatePostfix_stod_error (L : Libm) (t : String) (rest : List String)
    (e : CalcError) (hn : isNumber t = true) (h : stod t = .error e) :
    evaluatePostfix L (t :: rest) = .error e := by
  simp [evaluatePostfix, evaluateLoop, hn, h]

theorem evaluate_division_zero (L : Libm) (a z : String) (x : Double)
    (ha : stod a = .ok x) (hz : stod z = .ok (Double.ofNat 0)) :
    evaluatePostfix L [a, z, "/"] = .error .divisionByZero := by
  have e1 : isNumber "/" = false := by decide
  have e3 : isOperator "/" = true := by decide
  have e4 : (Double.ofNat 0).isZero = true := by decide
  simp [evaluatePostfix, evaluateLoop, applyOperator, isNumber_of_stod ha, isNumber_of_stod hz,
    ha, hz, e1, e3, e4,
    Stack.empty, Stack.push, Stack.pop, Stack.top, Stack.isEmpty, Stack.size,
    DoublyLinkedList.empty, DoublyLinkedList.push_back, DoublyLinkedList.pop_back,
    DoublyLinkedList.size, DoublyLinkedList.get?]

/-! ## Exponentiation and division -/

/-- C10, as stated, fails: with the digit-only token `hugeNumber` as the
dividend, evaluating `a 0 /` ends with the `out_of_range` exception of
`stod`, not with the division-by-zero one. -/
theorem division_by_zero_counterexample :
    isNumber hugeNumber = true ∧
    ∀ L : Libm, evaluatePostfix L [hugeNumber, "0", "/"] = .error .stodOutOfRange ∧
      evaluatePostfix L [hugeNumber, "0", "/"] ≠ .error .divisionByZero := by
  refine ⟨isNumber_hugeNumber, fun L => ?_⟩
  have h := evaluatePostfix_stod_error L hugeNumber ["0", "/"] _ isNumber_hugeNumber
    stod_hugeNumber
  rw [h]
  exact ⟨rfl, by decide⟩

set_option maxRecDepth 100000 in
/-- C10, amended: for every token `a` that `stod` converts (digit-only,
non-empty and within the range of `double`) and every non-empty token `z` of
zeros only, evaluating `a z /` fails with the division-by-zero exception; in
particular the line `4 / 0` passes validation, converts to `4 0 /`, and its
cycle prints that exception alone, neither postfix nor result. -/
theorem division_by_zero (L : Libm) (a z : String) (x : Double) (ha : stod a = .ok x)
    (hne : z.data ≠ []) (hz : ∀ c ∈ z.data, c = '0') :
    evaluatePostfix L [a, z, "/"] = .error .divisionByZero ∧
    validateExpression (tokenize "4 / 0") = .ok () ∧
    infixToPostfix (tokenize "4 / 0") = .ok ["4", "0", "/"] ∧
    mainCycle L "4 / 0" = .next [.exception .divisionByZero] := by
  refine ⟨evaluate_division_zero L a z x ha (stod_zeros z hne hz), by decide, by decide, ?_⟩
  rfl

/-- Witness of C10: `4 000 /`. -/
theorem division_by_zero_witness :
    stod "4" = .ok (Double.ofNat 4) ∧
    evaluatePostfix sampleLibm ["4", "000", "/"] = .error .divisionByZero :=
  ⟨by decide!, (division_by_zero sampleLibm "4" "000" (Double.ofNat 4) (by decide!)
    (by decide) (by decide)).1⟩

/-! ## The validator and its rules -/

theorem isNumber_iff (t : String) : isNumber t = true ↔ DigitOnly t := by
  simp [isNumber, DigitOnly, isdigit]

theorem isOperator_iff_isOp (t : String) : isOperator t = true ↔ IsOp t := isOperator_iff t

theorem isFunction_iff_isFn (t : String) : isFunction t = true ↔ IsFn t := isFunction_iff t

theorem legal_iff (t : String) :
    Legal t ↔ (!isNumber t && !isOperator t && !isFunction t && t != "(" && t != ")") = false := by
  simp only [Legal, ← isNumber_iff, ← isOperator_iff_isOp, ← isFunction_iff_isFn]
  cases isNumber t <;> cases isOperator t <;> cases isFunction t <;> simp
  tauto

theorem balance_step (bal : Int) (t : String) :
    (if (t == "(") = true then bal + 1 else if (t == ")") = true then bal - 1 else bal) =
      bal + delta t := by
  unfold delta
  by_cases h1 : t = "("
  · simp [h1]
  · by_cases h2 : t = ")"
    · simp [h2]; rfl
    · simp [h1, h2]

theorem validateLoop_step (size i : Nat) (bal : Int) (t : String) (rest : List String)
    (hsize : i + (rest.length + 1) = size) :
    validateLoop size i bal (t :: rest) =
      match tokenCheck (i == 0) t rest.head? with
      | some e => .error e
      | none => validateLoop size (i + 1) (bal + delta t) rest := by
  have hlast : (i == size - 1) = rest.isEmpty := by
    cases rest with
    | nil => simp at hsize; simp [← hsize]
    | cons u r => simp at hsize; simp; omega
  rw [validateLoop]
  simp only [balance_step, hlast]
  by_cases hl : Legal t
  · have hl' := (legal_iff t).1 hl
    rw [hl']
    simp only [tokenCheck, hl, ← isOperator_iff_isOp, ← isFunction_iff_isFn]
    cases rest with
    | nil =>
      cases ho : isOperator t <;> cases hf : isFunction t <;> simp
    | cons u r =>
      cases ho : isOperator t <;> cases hf : isFunction t <;> cases hi : (i == 0) <;>
        cases hou : isOperator u <;> by_cases hu : u = ")" <;> by_cases hu' : u = "(" <;>
        simp_all
  · have hl' : (!isNumber t && !isOperator t && !isFunction t && t != "(" && t != ")") = true := by
      cases h : (!isNumber t && !isOperator t && !isFunction t && t != "(" && t != ")")
      · exact absurd ((legal_iff t).2 h) hl
      · rfl
    rw [hl']
    simp [tokenCheck, hl]

theorem validateLoop_eq_scan (size : Nat) (rest : List String) :
    ∀ (i : Nat) (bal : Int), i + rest.length = size →
      validateLoop size i bal rest =
        match scan (i == 0) rest with
        | some e => .error e
        | none => .ok (bal + depth rest) := by
  induction rest with
  | nil => intro i bal _; simp [validateLoop, scan, depth]
  | cons t rest ih =>
    intro i bal hsize
    rw [validateLoop_step size i bal t rest (by simpa using hsize), scan]
    cases hc : tokenCheck (i == 0) t rest.head? with
    | some e => rfl
    | none =>
      have h := ih (i + 1) (bal + delta t) (by simp at hsize; omega)
      simp only [h, depth]
      have : (i + 1 == 0) = false := by simp
      rw [this, add_assoc]

theorem validateExpression_eq_scan (tokens : List String) :
    validateExpression tokens =
      match scan true tokens with
      | some e => .error e
      | none => if depth tokens ≠ 0 then .error .unbalancedParentheses else .ok () := by
  unfold validateExpression
  rw [validateLoop_eq_scan tokens.length tokens 0 0 (by simp)]
  have h0 : ((0 : Nat) == 0) = true := rfl
  rw [h0]
  generalize scan true tokens = r
  cases r <;> simp

theorem violationAt_eq_checkAt (tokens : List String) (i : Nat) :
    violationAt tokens i = checkAt true tokens i := by
  simp [violationAt, checkAt]

theorem checkAt_zero (f : Bool) (t : String) (rest : List String) :
    checkAt f (t :: rest) 0 = tokenCheck f t rest.head? := by
  cases rest <;> simp [checkAt]

theorem checkAt_succ (f : Bool) (t : String) (rest : List String) (k : Nat) :
    checkAt f (t :: rest) (k + 1) = checkAt false rest k := by
  simp [checkAt]

theorem scan_eq_none (l : List String) : ∀ f, scan f l = none ↔ ∀ k, checkAt f l k = none := by
  induction l with
  | nil => intro f; simp [scan, checkAt]
  | cons t rest ih =>
    intro f
    rw [scan]
    constructor
    · intro h k
      cases hc : tokenCheck f t rest.head? with
      | some e => rw [hc] at h; cases h
      | none =>
        rw [hc] at h
        cases k with
        | zero => rw [checkAt_zero, hc]
        | succ k => rw [checkAt_succ]; exact (ih false).1 h k
    · intro h
      have h0 := h 0
      rw [checkAt_zero] at h0
      rw [h0]
      exact (ih false).2 (fun k => by have := h (k + 1); rwa [checkAt_succ] at this)

theorem scan_eq_some (l : List String) (e : ValidationError) :
    ∀ f, scan f l = some e ↔
      ∃ k, checkAt f l k = some e ∧ ∀ j, j < k → checkAt f l j = none := by
  induction l with
  | nil => intro f; simp [scan, checkAt]
  | cons t rest ih =>
    intro f
    rw [scan]
    cases hc : tokenCheck f t rest.head? with
    | some e' =>
      constructor
      · intro h
        refine ⟨0, ?_, fun j hj => absurd hj (Nat.not_lt_zero j)⟩
        rw [checkAt_zero, hc]; exact h
      · rintro ⟨k, hk, hlt⟩
        cases k with
        | zero => rw [checkAt_zero, hc] at hk; exact hk
        | succ k =>
          have := hlt 0 (Nat.succ_pos k)
          rw [checkAt_zero, hc] at this
          cases this
    | none =>
      constructor
      · intro h
        obtain ⟨k, hk, hlt⟩ := (ih false).1 h
        refine ⟨k + 1, by rw [checkAt_succ]; exact hk, fun j hj => ?_⟩
        cases j with
        | zero => rw [checkAt_zero, hc]
        | succ j => rw [checkAt_succ]; exact hlt j (Nat.lt_of_succ_lt_succ hj)
      · rintro ⟨k, hk, hlt⟩
        cases k with
        | zero => rw [checkAt_zero, hc] at hk; cases hk
        | succ k =>
          rw [checkAt_succ] at hk
          refine (ih false).2 ⟨k, hk, fun j hj => ?_⟩
          have := hlt (j + 1) (Nat.succ_lt_succ hj)
          rwa [checkAt_succ] at this

theorem depth_eq_count (l : List String) :
    depth l = (l.count "(" : Int) - (l.count ")" : Int) := by
  induction l with
  | nil => simp [depth]
  | cons t rest ih =>
    rw [depth, ih, delta]
    by_cases h1 : t = "("
    · subst h1
      have : ("(" : String) ≠ ")" := by decide
      simp [List.count_cons, this]; ring
    · by_cases h2 : t = ")"
      · subst h2
        simp [List.count_cons, h1]; ring
      · have h1' : ¬ ("(" = t) := fun h => h1 h.symm
        have h2' : ¬ (")" = t) := fun h => h2 h.symm
        simp [List.count_cons, h1, h2, h1', h2']

theorem depth_eq_zero_iff (l : List String) : depth l = 0 ↔ Balanced l := by
  rw [depth_eq_count, Balanced]; omega

theorem tokenCheck_eq_none (f : Bool) (t : String) (next : Option String) :
    tokenCheck f t next = none ↔
      Legal t ∧ (IsOp t → f = false ∧ ∃ u, next = some u ∧ ¬IsOp u ∧ u ≠ ")") ∧
        (IsFn t → next = some "(") := by
  unfold tokenCheck
  by_cases hl : Legal t
  · cases next with
    | none => by_cases ho : IsOp t <;> by_cases hf : IsFn t <;> cases f <;> simp [hl, ho, hf]
    | some u =>
      by_cases ho : IsOp t <;> by_cases hf : IsFn t <;> cases f <;>
        by_cases hou : IsOp u <;> by_cases hu : u = ")" <;> by_cases hu' : u = "(" <;>
        simp [hl, ho, hf, hou, hu, hu']
  · simp [hl]

theorem violationAt_eq_none (tokens : List String) (i : Nat) :
    violationAt tokens i = none ↔
      ∀ t, tokens[i]? = some t →
        Legal t ∧ (IsOp t → i ≠ 0 ∧ ∃ u, tokens[i + 1]? = some u ∧ ¬IsOp u ∧ u ≠ ")") ∧
          (IsFn t → tokens[i + 1]? = some "(") := by
  unfold violationAt
  cases h : tokens[i]? with
  | none => simp
  | some t =>
    simp only [tokenCheck_eq_none, Option.some.injEq, forall_eq', beq_eq_false_iff_ne, ne_eq]

theorem no_violation_iff (tokens : List String) :
    (∀ i, violationAt tokens i = none) ↔
      AllLegal tokens ∧ NoEdgeOperator tokens ∧ NoBadFollower tokens ∧
        FunctionsCalled tokens := by
  simp only [violationAt_eq_none]
  constructor
  · intro h
    refine ⟨?_, ?_, ?_, ?_⟩
    · intro t ht
      obtain ⟨i, hi⟩ := List.getElem?_of_mem ht
      exact (h i t hi).1
    · intro i t hi ho
      obtain ⟨h0, u, hu, -⟩ := (h i t hi).2.1 ho
      refine ⟨h0, ?_⟩
      have := (List.getElem?_eq_some.1 hu).1
      omega
    · intro i t u hi hu ho
      obtain ⟨-, u', hu', h1, h2⟩ := (h i t hi).2.1 ho
      rw [hu] at hu'
      cases hu'
      exact ⟨h1, h2⟩
    · intro i t hi hf
      exact (h i t hi).2.2 hf
  · rintro ⟨ha, hb, hc, hd⟩ i t hi
    refine ⟨ha t (List.getElem?_mem hi), ?_, hd i t hi⟩
    intro ho
    obtain ⟨h0, h1⟩ := hb i t hi ho
    refine ⟨h0, ?_⟩
    have hlt := (List.getElem?_eq_some.1 hi).1
    have hlt' : i + 1 < tokens.length := by omega
    refine ⟨tokens[i + 1], List.getElem?_eq_getElem hlt', ?_⟩
    exact hc i t _ hi (List.getElem?_eq_getElem hlt') ho

theorem validate_ok_iff (tokens : List String) :
    validateExpression tokens = .ok () ↔
      (∀ i, violationAt tokens i = none) ∧ Balanced tokens := by
  rw [validateExpression_eq_scan]
  simp only [violationAt_eq_checkAt, ← scan_eq_none, ← depth_eq_zero_iff]
  cases scan true tokens with
  | some e => simp
  | none => by_cases hd : depth tokens = 0 <;> simp [hd]

theorem validate_error_iff (tokens : List String) (e : ValidationError) :
    validateExpression tokens = .error e ↔
      (∃ i, violationAt tokens i = some e ∧ ∀ j, j < i → violationAt tokens j = none) ∨
      (e = .unbalancedParentheses ∧ (∀ i, violationAt tokens i = none) ∧
        ¬Balanced tokens) := by
  rw [validateExpression_eq_scan]
  simp only [violationAt_eq_checkAt, ← scan_eq_none, ← scan_eq_some, ← depth_eq_zero_iff]
  cases scan true tokens with
  | some e' =>
    simp only [Except.error.injEq, Option.some.injEq, reduceCtorEq, false_and, and_false,
      or_false]
  | none =>
    by_cases hd : depth tokens = 0
    · simp [hd]
    · simp [hd, eq_comm]

/-- C5: `validateExpression` accepts a token sequence exactly when (a) every
token is a digit-only number, an operator, a function or a parenthesis, (b) no
operator is first or last, (c) no operator is immediately followed by an
operator or by `)`, (d) every function is immediately followed by `(`, and
(e) there are as many `(` as `)`. -/
theorem validate_accepts_iff (tokens : List String) :
    validateExpression tokens = .ok () ↔
      AllLegal tokens ∧ NoEdgeOperator tokens ∧ NoBadFollower tokens ∧
        FunctionsCalled tokens ∧ Balanced tokens := by
  rw [validate_ok_iff, no_violation_iff]
  tauto

/-- C6, as stated, fails: `+ x` contains the unknown token `x`, yet it is
rejected with the operator-position message for `+`. -/
theorem validate_priority_counterexample :
    ¬Legal "x" ∧ validateExpression ["+", "x"] = .error (.operatorPosition "+") := by
  decide

/-- C6, amended: a rejected sequence is reported with the message of the
leftmost token that breaks a rule, and of the first rule that token breaks in
the order unknown token, operator position, operator follow, function syntax;
unbalanced parentheses are reported when no token breaks a rule. A sequence
with an unknown token is always rejected, and with the unknown-token message
when no token before it breaks a rule. -/
theorem validate_reports_first_violation (tokens : List String) :
    (∀ e, validateExpression tokens = .error e ↔
      (∃ i, violationAt tokens i = some e ∧ ∀ j, j < i → violationAt tokens j = none) ∨
      (e = .unbalancedParentheses ∧ (∀ i, violationAt tokens i = none) ∧
        ¬Balanced tokens)) ∧
    ((∃ t ∈ tokens, ¬Legal t) → validateExpression tokens ≠ .ok ()) ∧
    (∀ i t, tokens[i]? = some t → ¬Legal t →
      (∀ j, j < i → violationAt tokens j = none) →
      validateExpression tokens = .error (.unknownToken t)) := by
  refine ⟨validate_error_iff tokens, ?_, ?_⟩
  · rintro ⟨t, ht, hl⟩ hok
    exact hl (((no_violation_iff tokens).1 ((validate_ok_iff tokens).1 hok).1).1 t ht)
  · intro i t hi hl hlt
    refine (validate_error_iff tokens _).2 (Or.inl ⟨i, ?_, hlt⟩)
    simp [violationAt, hi, tokenCheck, hl]

/-- C8: when every token is legal and the operator-position, operator-follow
and function-syntax rules hold, `validateExpression` reports unbalanced
parentheses exactly when the numbers of `(` and `)` differ. -/
theorem unbalanced_iff (tokens : List String) (ha : AllLegal tokens)
    (hb : NoEdgeOperator tokens) (hc : NoBadFollower tokens) (hd : FunctionsCalled tokens) :
    validateExpression tokens = .error .unbalancedParentheses ↔ ¬Balanced tokens := by
  have hnone := (no_violation_iff tokens).2 ⟨ha, hb, hc, hd⟩
  rw [validate_error_iff]
  constructor
  · rintro (⟨i, hi, -⟩ | ⟨-, -, h⟩)
    · rw [hnone i] at hi; cases hi
    · exact h
  · intro h
    exact Or.inr ⟨rfl, hnone, h⟩

theorem no_violation_open_sum : ∀ i, violationAt ["(", "1", "+", "2"] i = none := by
  intro i
  match i with
  | 0 => decide
  | 1 => decide
  | 2 => decide
  | 3 => decide
  | k + 4 => simp [violationAt]

/-- Witness of C8: `( 1 + 2`. -/
theorem unbalanced_iff_witness :
    AllLegal ["(", "1", "+", "2"] ∧ NoEdgeOperator ["(", "1", "+", "2"] ∧
    NoBadFollower ["(", "1", "+", "2"] ∧ FunctionsCalled ["(", "1", "+", "2"] ∧
    validateExpression ["(", "1", "+", "2"] = .error .unbalancedParentheses :=
  have h := (no_violation_iff ["(", "1", "+", "2"]).1 no_violation_open_sum
  ⟨h.1, h.2.1, h.2.2.1, h.2.2.2,
    (unbalanced_iff ["(", "1", "+", "2"] h.1 h.2.1 h.2.2.1 h.2.2.2).2 (by decide)⟩

/-! ## The evaluator loop and its list form -/

theorem Stack.eq_ofTopFirst {α : Type} (s : Stack α) :
    s = Stack.ofTopFirst s.list.nodes.reverse := by
  cases s with
  | mk list => cases list with
    | mk nodes => simp [Stack.ofTopFirst]

theorem Stack.empty_eq {α : Type} : (Stack.empty : Stack α) = Stack.ofTopFirst [] := rfl

theorem Stack.push_ofTopFirst {α : Type} (l : List α) (v : α) :
    (Stack.ofTopFirst l).push v = Stack.ofTopFirst (v :: l) := by
  simp [Stack.ofTopFirst, Stack.push, DoublyLinkedList.push_back]

theorem Stack.size_ofTopFirst {α : Type} (l : List α) :
    (Stack.ofTopFirst l).size = l.length := by
  simp [Stack.ofTopFirst, Stack.size, DoublyLinkedList.size]

theorem Stack.isEmpty_ofTopFirst_nil {α : Type} :
    (Stack.ofTopFirst ([] : List α)).isEmpty = true := rfl

theorem Stack.isEmpty_ofTopFirst_cons {α : Type} (v : α) (l : List α) :
    (Stack.ofTopFirst (v :: l)).isEmpty = false := by
  simp [Stack.ofTopFirst, Stack.isEmpty, DoublyLinkedList.size]

theorem Stack.pop_ofTopFirst_nil {α : Type} :
    (Stack.ofTopFirst ([] : List α)).pop = .error .emptyStack := rfl

theorem Stack.top_ofTopFirst_nil {α : Type} :
    (Stack.ofTopFirst ([] : List α)).top = .error .emptyStack := rfl

theorem Stack.top_ofTopFirst_cons {α : Type} (v : α) (l : List α) :
    (Stack.ofTopFirst (v :: l)).top = .ok v := by
  simp [Stack.ofTopFirst, Stack.top, Stack.isEmpty, DoublyLinkedList.size,
    DoublyLinkedList.get?]

theorem Stack.pop_ofTopFirst_cons {α : Type} (v : α) (l : List α) :
    (Stack.ofTopFirst (v :: l)).pop = .ok (v, Stack.ofTopFirst l) := by
  have h : l.reverse ++ [v] ≠ [] := by simp
  simp [Stack.ofTopFirst, Stack.pop, Stack.isEmpty, DoublyLinkedList.size,
    DoublyLinkedList.get?, DoublyLinkedList.pop_back]
  split
  · rename_i heq; exact absurd heq h
  · rfl

theorem evaluateLoop_eq_evaluateList (L : Libm) (tokens : List String) :
    ∀ l : List Double, evaluateLoop L tokens (Stack.ofTopFirst l) =
      match evaluateList L tokens l with
      | .error e => .error e
      | .ok l' => .ok (Stack.ofTopFirst l') := by
  induction tokens with
  | nil => intro l; rfl
  | cons token rest ih =>
    intro l
    rw [evaluateLoop, evaluateList]
    unfold evaluateStep
    by_cases hn : isNumber token = true
    · simp only [hn, if_true]
      cases stod token with
      | error e => rfl
      | ok value => simp only [Stack.push_ofTopFirst, ih]
    · simp only [hn, Bool.false_eq_true, if_false]
      by_cases ho : isOperator token = true
      · simp only [ho, if_true, Stack.size_ofTopFirst]
        match l with
        | [] => simp
        | [b] => simp
        | b :: a :: below =>
          simp only [List.length_cons, Stack.pop_ofTopFirst_cons]
          rw [if_neg (by omega)]
          cases applyOperator L token a b with
          | error e => rfl
          | ok result => simp only [Stack.push_ofTopFirst, ih]
      · simp only [ho, Bool.false_eq_true, if_false]
        by_cases hf : isFunction token = true
        · simp only [hf, if_true, Stack.size_ofTopFirst]
          match l with
          | [] => simp
          | a :: below =>
            simp only [List.length_cons, Stack.pop_ofTopFirst_cons]
            rw [if_neg (by omega)]
            cases applyFunction L token a with
            | error e => rfl
            | ok result => simp only [Stack.push_ofTopFirst, ih]
        · simp only [hf, Bool.false_eq_true, if_false, ih]

theorem evaluatePostfix_eq_evaluateList (L : Libm) (tokens : List String) :
    evaluatePostfix L tokens =
      match evaluateList L tokens [] with
      | .error e => .error e
      | .ok [value] => .ok value
      | .ok _ => .error .malformedExpression := by
  rw [evaluatePostfix, Stack.empty_eq, evaluateLoop_eq_evaluateList]
  cases evaluateList L tokens [] with
  | error e => rfl
  | ok l =>
    match l with
    | [] => rfl
    | [v] => simp [Stack.size_ofTopFirst, Stack.pop_ofTopFirst_cons]
    | v :: w :: l => simp [Stack.size_ofTopFirst]

theorem evaluateList_append (L : Libm) (pre rest : List String) :
    ∀ l : List Double, evaluateList L (pre ++ rest) l =
      match evaluateList L pre l with
      | .error e => .error e
      | .ok l' => evaluateList L rest l' := by
  induction pre with
  | nil => intro l; rfl
  | cons token pre ih =>
    intro l
    rw [List.cons_append, evaluateList, evaluateList]
    cases evaluateStep L token l with
    | error e => rfl
    | ok l' => exact ih l'

theorem applyOperator_error (L : Libm) (token : String) (a b : Double) (e : CalcError)
    (ho : isOperator token = true) (h : applyOperator L token a b = .error e) :
    e = .divisionByZero := by
  unfold applyOperator at h
  rcases (isOperator_iff token).1 ho with rfl | rfl | rfl | rfl | rfl
  · simp at h
  · simp at h
  · simp at h
  · simp at h
    split at h
    · cases h; rfl
    · cases h
  · simp at h

theorem applyFunction_ok (L : Libm) (token : String) (a : Double)
    (hf : isFunction token = true) : ∃ r, applyFunction L token a = .ok r := by
  unfold applyFunction
  rcases (isFunction_iff token).1 hf with rfl | rfl
  · exact ⟨L.sin a, by simp⟩
  · exact ⟨L.cos a, by simp⟩

theorem stod_error (token : String) (e : CalcError) (h : stod token = .error e) :
    e = .stodInvalidArgument ∨ e = .stodOutOfRange := by
  unfold stod at h
  split at h
  · cases h; exact Or.inl rfl
  · split at h
    · cases h; exact Or.inr rfl
    · cases h

theorem evaluateStep_error (L : Libm) (token : String) (l : List Double) (e : CalcError)
    (h : evaluateStep L token l = .error e) : e.isOperandError := by
  unfold evaluateStep at h
  split at h
  · cases hs : stod token with
    | error e' =>
      rw [hs] at h
      cases h
      rcases stod_error token e hs with rfl | rfl <;> trivial
    | ok value => rw [hs] at h; cases h
  · split at h
    · rename_i ho
      match l with
      | [] => cases h; trivial
      | [b] => cases h; trivial
      | b :: a :: below =>
        simp only at h
        cases ha : applyOperator L token a b with
        | error e' =>
          rw [ha] at h
          cases h
          rw [applyOperator_error L token a b e ho ha]
          trivial
        | ok result => rw [ha] at h; cases h
    · split at h
      · rename_i hf
        match l with
        | [] => cases h; trivial
        | a :: below =>
          simp only at h
          obtain ⟨r, hr⟩ := applyFunction_ok L token a hf
          rw [hr] at h
          cases h
      · cases h

theorem evaluateList_error (L : Libm) (tokens : List String) :
    ∀ (l : List Double) (e : CalcError), evaluateList L tokens l = .error e →
      e.isOperandError := by
  induction tokens with
  | nil => intro l e h; cases h
  | cons token rest ih =>
    intro l e h
    rw [evaluateList] at h
    cases hs : evaluateStep L token l with
    | error e' => rw [hs] at h; cases h; exact evaluateStep_error L token l e hs
    | ok l' => rw [hs] at h; exact ih _ _ h

theorem evaluateStep_length (L : Libm) (token : String) (l l' : List Double)
    (h : evaluateStep L token l = .ok l') :
    (l'.length : Int) =
      l.length + (if isNumber token then 1 else 0) - (if isOperator token then 1 else 0) := by
  unfold evaluateStep at h
  by_cases hn : isNumber token = true
  · have ho := isOperator_false_of_isNumber hn
    simp only [hn, if_true] at h
    cases hs : stod token with
    | error e => rw [hs] at h; cases h
    | ok value => rw [hs] at h; cases h; simp [hn, ho]
  · simp only [hn, Bool.false_eq_true, if_false] at h
    by_cases ho : isOperator token = true
    · simp only [ho, if_true] at h
      match l with
      | [] => cases h
      | [b] => cases h
      | b :: a :: below =>
        simp only at h
        cases ha : applyOperator L token a b with
        | error e => rw [ha] at h; cases h
        | ok result => rw [ha] at h; cases h; simp [hn, ho]
    · simp only [ho, Bool.false_eq_true, if_false] at h
      by_cases hf : isFunction token = true
      · simp only [hf, if_true] at h
        match l with
        | [] => cases h
        | a :: below =>
          simp only at h
          cases ha : applyFunction L token a with
          | error e => rw [ha] at h; cases h
          | ok result => rw [ha] at h; cases h; simp [hn, ho]
      · simp only [hf, Bool.false_eq_true, if_false] at h
        cases h; simp [hn, ho]

theorem evaluateList_length (L : Libm) (tokens : List String) :
    ∀ (l l' : List Double), evaluateList L tokens l = .ok l' →
      (l'.length : Int) =
        l.length + (tokens.countP isNumber : Int) - (tokens.countP isOperator : Int) := by
  induction tokens with
  | nil => intro l l' h; cases h; simp
  | cons token rest ih =>
    intro l l' h
    rw [evaluateList] at h
    cases hs : evaluateStep L token l with
    | error e => rw [hs] at h; cases h
    | ok l1 =>
      rw [hs] at h
      have h1 := evaluateStep_length L token l l1 hs
      have h2 := ih _ _ h
      simp only [List.countP_cons]
      push_cast
      rw [h2, h1]
      split <;> split <;> simp <;> omega

/-! ## Claims about the evaluator -/

theorem evaluate_binary (L : Libm) (a b op : String) (x y : Double)
    (ha : stod a = .ok x) (hb : stod b = .ok y) (ho : isOperator op = true) :
    evaluatePostfix L [a, b, op] = applyOperator L op x y := by
  rw [evaluatePostfix_eq_evaluateList]
  simp only [evaluateList, evaluateStep, isNumber_of_stod ha, isNumber_of_stod hb, ha, hb,
    isNumber_false_of_isOperator ho, ho, if_true, Bool.false_eq_true, if_false]
  cases applyOperator L op x y with
  | error e => rfl
  | ok r => rfl

theorem evaluateLoop_ok_iff (L : Libm) (tokens : List String) (stack : Stack Double) :
    evaluateLoop L tokens Stack.empty = .ok stack ↔
      ∃ l, evaluateList L tokens [] = .ok l ∧ stack = Stack.ofTopFirst l := by
  rw [Stack.empty_eq, evaluateLoop_eq_evaluateList]
  cases evaluateList L tokens [] with
  | error e => simp
  | ok l => simp [eq_comm]

/-- C11, as stated, fails: with the digit-only token `hugeNumber` as the left
operand, evaluating `a 2 -` returns no difference, with any math library:
`stod` throws `out_of_range`. -/
theorem operand_order_counterexample :
    isNumber hugeNumber = true ∧ isNumber "2" = true ∧
    ∀ L : Libm, evaluatePostfix L [hugeNumber, "2", "-"] = .error .stodOutOfRange :=
  ⟨isNumber_hugeNumber, by decide,
    fun L => evaluatePostfix_stod_error L hugeNumber _ _ isNumber_hugeNumber stod_hugeNumber⟩

/-- C11, amended: for tokens `a`, `b` that `stod` converts to `x`, `y`
(digit-only, non-empty and within the range of `double`), evaluating `a b -`
returns `x - y` and, when `y` is not zero, evaluating `a b /` returns `x / y`:
the value pushed last is the right operand. So `7 2 -` gives 5, not -5. -/
theorem operand_order (L : Libm) (a b : String) (x y : Double)
    (ha : stod a = .ok x) (hb : stod b = .ok y) :
    evaluatePostfix L [a, b, "-"] = .ok (x.sub y) ∧
    (y.isZero = false → evaluatePostfix L [a, b, "/"] = .ok (x.div y)) ∧
    evaluatePostfix L ["7", "2", "-"] = .ok (Double.ofNat 5) ∧
    evaluatePostfix L ["7", "2", "-"] ≠ .ok (Double.ofNat 5).neg := by
  have h7 : stod "7" = .ok (Double.ofNat 7) := by decide!
  have h2 : stod "2" = .ok (Double.ofNat 2) := by decide!
  have hs : (Double.ofNat 7).sub (Double.ofNat 2) = Double.ofNat 5 := by decide!
  refine ⟨?_, ?_, ?_, ?_⟩
  · rw [evaluate_binary L a b "-" x y ha hb (by decide)]; rfl
  · intro hy
    rw [evaluate_binary L a b "/" x y ha hb (by decide)]
    simp [applyOperator, hy]
  · rw [evaluate_binary L "7" "2" "-" _ _ h7 h2 (by decide)]
    simp [applyOperator, hs]
  · rw [evaluate_binary L "7" "2" "-" _ _ h7 h2 (by decide)]
    have hne : Double.ofNat 5 ≠ (Double.ofNat 5).neg := by decide!
    simp [applyOperator, hs, hne]

/-- Witness of C11: `7 2 -` and `7 2 /`. -/
theorem operand_order_witness :
    stod "7" = .ok (Double.ofNat 7) ∧ stod "2" = .ok (Double.ofNat 2) ∧
    evaluatePostfix sampleLibm ["7", "2", "-"] = .ok ((Double.ofNat 7).sub (Double.ofNat 2)) ∧
    evaluatePostfix sampleLibm ["7", "2", "/"] = .ok ((Double.ofNat 7).div (Double.ofNat 2)) :=
  have h7 : stod "7" = .ok (Double.ofNat 7) := by decide!
  have h2 : stod "2" = .ok (Double.ofNat 2) := by decide!
  have h := operand_order sampleLibm "7" "2" (Double.ofNat 7) (Double.ofNat 2) h7 h2
  ⟨h7, h2, h.1, h.2.1 (by decide!)⟩

/-- C12: `evaluatePostfix` never fails with the empty-stack exception of
`Stack`. When the tokens before an operator leave fewer than two values on
the stack, or those before a function leave none, it fails with the
insufficient-operands exception naming that token; so the validated line
`1 + ( )`, which converts to `1 +`, fails with that exception for `+`. -/
theorem evaluate_never_empty_stack (L : Libm) (tokens : List String) :
    evaluatePostfix L tokens ≠ .error .emptyStack ∧
    (∀ pre tok rest stack, tokens = pre ++ tok :: rest →
      evaluateLoop L pre Stack.empty = .ok stack →
      (isOperator tok = true → stack.size < 2 →
        evaluatePostfix L tokens = .error (.insufficientOperandsOperator tok)) ∧
      (isFunction tok = true → stack.size < 1 →
        evaluatePostfix L tokens = .error (.insufficientOperandsFunction tok))) ∧
    validateExpression (tokenize "1 + ( )") = .ok () ∧
    infixToPostfix (tokenize "1 + ( )") = .ok ["1", "+"] ∧
    evaluatePostfix L ["1", "+"] = .error (.insufficientOperandsOperator "+") := by
  refine ⟨?_, ?_, by decide, by decide, ?_⟩
  · rw [evaluatePostfix_eq_evaluateList]
    cases h : evaluateList L tokens [] with
    | error e =>
      have := evaluateList_error L tokens [] e h
      intro heq
      cases heq
      exact this
    | ok l =>
      match l with
      | [] => simp
      | [v] => simp
      | v :: w :: l => simp
  · intro pre tok rest stack htok hloop
    obtain ⟨l, hl, rfl⟩ := (evaluateLoop_ok_iff L pre stack).1 hloop
    rw [Stack.size_ofTopFirst]
    subst htok
    rw [evaluatePostfix_eq_evaluateList, evaluateList_append, hl]
    constructor
    · intro ho hsize
      have hn := isNumber_false_of_isOperator ho
      match l, hsize with
      | [], _ => simp [evaluateList, evaluateStep, hn, ho]
      | [b], _ => simp [evaluateList, evaluateStep, hn, ho]
    · intro hf hsize
      have hn := isNumber_false_of_isFunction hf
      have ho : isOperator tok = false := by
        cases h : isOperator tok
        · rfl
        · rw [isFunction_false_of_isOperator h] at hf; cases hf
      match l, hsize with
      | [], _ => simp [evaluateList, evaluateStep, hn, ho, hf]
  · have h1 : stod "1" = .ok (Double.ofNat 1) := by decide!
    rw [evaluatePostfix_eq_evaluateList]
    simp [evaluateList, evaluateStep, h1, show isNumber "1" = true by decide,
      show isNumber "+" = false by decide, show isOperator "+" = true by decide]

/-- C13: when `evaluatePostfix` consumes all its tokens without an exception,
leaving `stack`, it returns a number exactly when `stack` holds one value,
that is exactly when the number tokens are one more than the operator tokens;
otherwise it fails with the malformed-expression exception, as on the empty
sequence and on `1 2`. -/
theorem evaluate_result_iff (L : Libm) (tokens : List String) (stack : Stack Double)
    (h : evaluateLoop L tokens Stack.empty = .ok stack) :
    ((∃ v, evaluatePostfix L tokens = .ok v) ↔ stack.size = 1) ∧
    (stack.size = 1 ↔
      (tokens.countP isNumber : Int) - (tokens.countP isOperator : Int) = 1) ∧
    (stack.size ≠ 1 → evaluatePostfix L tokens = .error .malformedExpression) ∧
    evaluatePostfix L [] = .error .malformedExpression ∧
    evaluatePostfix L ["1", "2"] = .error .malformedExpression := by
  obtain ⟨l, hl, rfl⟩ := (evaluateLoop_ok_iff L tokens stack).1 h
  have hlen := evaluateList_length L tokens [] l hl
  rw [Stack.size_ofTopFirst]
  rw [evaluatePostfix_eq_evaluateList, hl]
  refine ⟨?_, ?_, ?_, rfl, ?_⟩
  · match l with
    | [] => simp
    | [v] => simp
    | v :: w :: l => simp
  · simp only [List.length_nil, Int.Nat.cast_ofNat_Int] at hlen
    omega
  · match l with
    | [] => simp
    | [v] => simp
    | v :: w :: l => simp
  · have h1 : stod "1" = .ok (Double.ofNat 1) := by decide!
    have h2 : stod "2" = .ok (Double.ofNat 2) := by decide!
    rw [evaluatePostfix_eq_evaluateList]
    simp [evaluateList, evaluateStep, h1, h2, show isNumber "1" = true by decide,
      show isNumber "2" = true by decide]

/-- Witness of C13: `3 4 +` leaves the single value 7. -/
theorem evaluate_result_iff_witness :
    evaluateLoop sampleLibm ["3", "4", "+"] Stack.empty =
      .ok (Stack.empty.push (Double.ofNat 7)) ∧
    ((∃ v, evaluatePostfix sampleLibm ["3", "4", "+"] = .ok v) ↔
      (Stack.empty.push (Double.ofNat 7)).size = 1) :=
  have h : evaluateLoop sampleLibm ["3", "4", "+"] Stack.empty =
      .ok (Stack.empty.push (Double.ofNat 7)) := by decide!
  ⟨h, (evaluate_result_iff sampleLibm ["3", "4", "+"] _ h).1⟩

/-! ## The converter loop and its list form -/

theorem popUntilParen_ofTopFirst (l : List String) :
    ∀ output : List String,
      popUntilParen l.length output (Stack.ofTopFirst l) =
        .ok (output ++ l.takeWhile (fun t => t != "("),
          Stack.ofTopFirst (l.dropWhile (fun t => t != "("))) := by
  induction l with
  | nil => intro output; simp [popUntilParen]
  | cons t l ih =>
    intro output
    rw [List.length_cons, popUntilParen]
    simp only [Stack.isEmpty_ofTopFirst_cons, Bool.false_eq_true, if_false,
      Stack.top_ofTopFirst_cons, Stack.pop_ofTopFirst_cons]
    by_cases ht : (t != "(") = true
    · simp only [ht, if_true, ih, List.takeWhile_cons, List.dropWhile_cons,
        List.append_assoc, List.singleton_append]
    · simp only [ht, Bool.false_eq_true, if_false, List.takeWhile_cons, List.dropWhile_cons,
        List.append_nil]

theorem popOperators_ofTopFirst (token : String) (l : List String) :
    ∀ output : List String,
      popOperators token l.length output (Stack.ofTopFirst l) =
        .ok (output ++ l.takeWhile (yields token),
          Stack.ofTopFirst (l.dropWhile (yields token))) := by
  induction l with
  | nil => intro output; simp [popOperators]
  | cons t l ih =>
    intro output
    rw [List.length_cons, popOperators]
    simp only [Stack.isEmpty_ofTopFirst_cons, Bool.false_eq_true, if_false,
      Stack.top_ofTopFirst_cons, Stack.pop_ofTopFirst_cons]
    by_cases ht : yields token t = true
    · have ht' := ht
      unfold yields at ht'
      simp only [ht', if_true, ih, List.takeWhile_cons, List.dropWhile_cons, ht,
        List.append_assoc, List.singleton_append]
    · have ht' := ht
      unfold yields at ht'
      simp only [ht', Bool.false_eq_true, if_false, List.takeWhile_cons, List.dropWhile_cons,
        ht, List.append_nil]

theorem popAll_ofTopFirst (l : List String) :
    ∀ output : List String,
      popAll l.length output (Stack.ofTopFirst l) = .ok (output ++ l, Stack.ofTopFirst []) := by
  induction l with
  | nil => intro output; simp [popAll]
  | cons t l ih =>
    intro output
    rw [List.length_cons, popAll]
    simp only [Stack.isEmpty_ofTopFirst_cons, Bool.false_eq_true, if_false,
      Stack.pop_ofTopFirst_cons, ih, List.append_assoc, List.singleton_append]

theorem convertLoop_eq_convertList (tokens : List String) :
    ∀ output l : List String, convertLoop tokens output (Stack.ofTopFirst l) =
      match convertList tokens output l with
      | .error e => .error e
      | .ok (output, l) => .ok (output, Stack.ofTopFirst l) := by
  induction tokens with
  | nil => intro output l; rfl
  | cons token rest ih =>
    intro output l
    rw [convertLoop, convertList]
    unfold convertStep
    by_cases hn : isNumber token = true
    · simp only [hn, if_true, ih]
    · simp only [hn, Bool.false_eq_true, if_false]
      by_cases hf : isFunction token = true
      · simp only [hf, if_true, Stack.push_ofTopFirst, ih]
      · simp only [hf, Bool.false_eq_true, if_false]
        by_cases hl : (token == "(") = true
        · simp only [hl, if_true, Stack.push_ofTopFirst, ih]
        · simp only [hl, Bool.false_eq_true, if_false]
          by_cases hr : (token == ")") = true
          · simp only [hr, if_true, Stack.size_ofTopFirst, popUntilParen_ofTopFirst]
            match hd : l.dropWhile (fun t => t != "(") with
            | [] => simp [Stack.pop_ofTopFirst_nil]
            | [p] =>
              simp [Stack.pop_ofTopFirst_cons, Stack.isEmpty_ofTopFirst_nil, ih]
            | p :: f :: below =>
              simp only [Stack.pop_ofTopFirst_cons, Stack.isEmpty_ofTopFirst_cons,
                Bool.false_eq_true, if_false, Stack.top_ofTopFirst_cons]
              by_cases hff : isFunction f = true
              · simp only [hff, if_true, ih]
              · simp only [hff, Bool.false_eq_true, if_false, ih]
          · simp only [hr, Bool.false_eq_true, if_false]
            by_cases ho : isOperator token = true
            · simp only [ho, if_true, Stack.size_ofTopFirst, popOperators_ofTopFirst,
                Stack.push_ofTopFirst, ih]
            · simp only [ho, Bool.false_eq_true, if_false, ih]

theorem infixToPostfix_eq_convertList (tokens : List String) :
    infixToPostfix tokens =
      match convertList tokens [] [] with
      | .error e => .error e
      | .ok (output, l) => .ok (output ++ l) := by
  rw [infixToPostfix, Stack.empty_eq, convertLoop_eq_convertList]
  cases convertList tokens [] [] with
  | error e => rfl
  | ok r =>
    obtain ⟨output, l⟩ := r
    simp only [Stack.size_ofTopFirst, popAll_ofTopFirst]

/-! ## Parentheses on the converter stack -/

theorem count_paren_dropWhile (l : List String) :
    match l.dropWhile (fun t => t != "(") with
    | [] => l.count "(" = 0
    | p :: below => p = "(" ∧ l.count "(" = below.count "(" + 1 := by
  induction l with
  | nil => simp
  | cons t l ih =>
    by_cases ht : t = "("
    · subst ht
      simp [List.dropWhile_cons]
    · have hne : (t != "(") = true := by simpa using ht
      have hne' : ¬ (("(" : String) = t) := fun h => ht h.symm
      simp only [List.dropWhile_cons, hne, if_true]
      have hc : (t :: l).count "(" = l.count "(" := by
        simp [List.count_cons, ht]
      rw [hc]
      exact ih

theorem count_paren_yields (token : String) (l : List String) :
    (l.dropWhile (yields token)).count "(" = l.count "(" := by
  induction l with
  | nil => simp
  | cons t l ih =>
    by_cases ht : yields token t = true
    · have hop : isOperator t = true := by
        unfold yields at ht
        simp only [Bool.and_eq_true] at ht
        exact ht.1
      have hne := (ne_paren_of_isOperator hop).1
      simp only [List.dropWhile_cons, ht, if_true, ih]
      simp [List.count_cons, hne]
    · simp only [List.dropWhile_cons, ht, Bool.false_eq_true, if_false]

theorem convertStep_error (token : String) (output l : List String) (e : CalcError)
    (h : convertStep token output l = .error e) :
    e = .emptyStack ∧ token = ")" ∧ l.count "(" = 0 := by
  unfold convertStep at h
  split at h
  · cases h
  · split at h
    · cases h
    · split at h
      · cases h
      · split at h
        · rename_i hr
          have hc := count_paren_dropWhile l
          split at h
          · rename_i hd
            rw [hd] at hc
            cases h
            exact ⟨rfl, by simpa using hr, hc⟩
          · cases h
          · split at h <;> cases h
        · split at h <;> cases h

theorem convertStep_count (token : String) (output l output' l' : List String)
    (h : convertStep token output l = .ok (output', l')) :
    (l'.count "(" : Int) = l.count "(" + delta token := by
  unfold convertStep at h
  unfold delta
  by_cases hn : isNumber token = true
  · have hp := ne_paren_of_isNumber hn
    simp only [hn, if_true, Except.ok.injEq, Prod.mk.injEq] at h
    obtain ⟨-, rfl⟩ := h
    simp [hp.1, hp.2]
  · simp only [hn, Bool.false_eq_true, if_false] at h
    by_cases hf : isFunction token = true
    · have hp := ne_paren_of_isFunction hf
      simp only [hf, if_true, Except.ok.injEq, Prod.mk.injEq] at h
      obtain ⟨-, rfl⟩ := h
      have hp' : ¬ (("(" : String) = token) := fun h => hp.1 h.symm
      simp [hp.1, hp.2, List.count_cons]
    · simp only [hf, Bool.false_eq_true, if_false] at h
      by_cases hl : token = "("
      · subst hl
        simp only [beq_self_eq_true, if_true, Except.ok.injEq, Prod.mk.injEq] at h
        obtain ⟨-, rfl⟩ := h
        simp [List.count_cons]
      · have hl' : (token == "(") = false := by simpa using hl
        simp only [hl', Bool.false_eq_true, if_false] at h
        by_cases hr : token = ")"
        · subst hr
          simp only [beq_self_eq_true, if_true] at h
          have hc := count_paren_dropWhile l
          split at h
          · cases h
          · rename_i p hd
            rw [hd] at hc
            simp only [Except.ok.injEq, Prod.mk.injEq] at h
            obtain ⟨-, rfl⟩ := h
            simp [hc.2]
          · rename_i p f below hd
            rw [hd] at hc
            split at h
            · rename_i hff
              have hp := (ne_paren_of_isFunction hff).1
              simp only [Except.ok.injEq, Prod.mk.injEq] at h
              obtain ⟨-, rfl⟩ := h
              simp [hc.2, List.count_cons, hp]
            · simp only [Except.ok.injEq, Prod.mk.injEq] at h
              obtain ⟨-, rfl⟩ := h
              simp [hc.2]
        · have hr' : (token == ")") = false := by simpa using hr
          simp only [hr', Bool.false_eq_true, if_false] at h
          split at h
          · simp only [Except.ok.injEq, Prod.mk.injEq] at h
            obtain ⟨-, rfl⟩ := h
            simp [List.count_cons, hl, hr, count_paren_yields]
          · simp only [Except.ok.injEq, Prod.mk.injEq] at h
            obtain ⟨-, rfl⟩ := h
            simp [hl, hr]

theorem convertList_error (tokens : List String) :
    ∀ (output l : List String) (e : CalcError),
      convertList tokens output l = .error e → e = .emptyStack := by
  induction tokens with
  | nil => intro output l e h; cases h
  | cons token rest ih =>
    intro output l e h
    rw [convertList] at h
    cases hs : convertStep token output l with
    | error e' => rw [hs] at h; cases h; exact (convertStep_error token output l e hs).1
    | ok r => rw [hs] at h; exact ih _ _ _ h

theorem convertList_ok_iff (tokens : List String) :
    ∀ (output l : List String),
      (∃ r, convertList tokens output l = .ok r) ↔
        ∀ n, 0 ≤ depth (tokens.take n) + (l.count "(" : Int) := by
  induction tokens with
  | nil =>
    intro output l
    simp [convertList, depth]
  | cons token rest ih =>
    intro output l
    rw [convertList]
    cases hs : convertStep token output l with
    | error e =>
      obtain ⟨-, rfl, hc⟩ := convertStep_error token output l e hs
      simp only [reduceCtorEq, exists_false, false_iff, not_forall, not_le]
      refine ⟨1, ?_⟩
      simp [depth, delta, hc]
    | ok r =>
      obtain ⟨output', l'⟩ := r
      have hc := convertStep_count token output l output' l' hs
      simp only
      rw [ih output' l']
      constructor
      · intro h n
        cases n with
        | zero => simp [depth]
        | succ n =>
          have := h n
          simp only [List.take_succ_cons, depth]
          omega
      · intro h n
        have := h (n + 1)
        simp only [List.take_succ_cons, depth] at this
        omega

theorem depth_take_nonneg_iff (tokens : List String) :
    (∀ n, 0 ≤ depth (tokens.take n)) ↔
      ∀ n, (tokens.take n).count ")" ≤ (tokens.take n).count "(" := by
  constructor
  · intro h n
    have := h n
    rw [depth_eq_count] at this
    omega
  · intro h n
    have := h n
    rw [depth_eq_count]
    omega

theorem infixToPostfix_ok_iff (tokens : List String) :
    (∃ p, infixToPostfix tokens = .ok p) ↔
      ∀ n, (tokens.take n).count ")" ≤ (tokens.take n).count "(" := by
  rw [← depth_take_nonneg_iff, infixToPostfix_eq_convertList]
  have h := convertList_ok_iff tokens [] []
  simp only [List.count_nil, Int.Nat.cast_ofNat_Int, add_zero] at h
  rw [← h]
  cases convertList tokens [] [] with
  | error e => simp
  | ok r => simp

theorem infixToPostfix_error (tokens : List String) (e : CalcError)
    (h : infixToPostfix tokens = .error e) : e = .emptyStack := by
  rw [infixToPostfix_eq_convertList] at h
  cases hc : convertList tokens [] [] with
  | error e' => rw [hc] at h; cases h; exact convertList_error tokens [] [] e hc
  | ok r => rw [hc] at h; cases h

/-! ## Claims about the converter and the pipeline -/

theorem convert_two_operators (a b c o1 o2 : String) (ha : isNumber a = true)
    (hb : isNumber b = true) (hc : isNumber c = true) (h1 : isOperator o1 = true)
    (h2 : isOperator o2 = true) :
    infixToPostfix [a, o1, b, o2, c] =
      if getPrecedence o1 ≥ getPrecedence o2 then .ok [a, b, o1, c, o2]
      else .ok [a, b, c, o2, o1] := by
  have n1 := isNumber_false_of_isOperator h1
  have n2 := isNumber_false_of_isOperator h2
  have f1 := isFunction_false_of_isOperator h1
  have f2 := isFunction_false_of_isOperator h2
  have p1 := ne_paren_of_isOperator h1
  have p2 := ne_paren_of_isOperator h2
  rw [infixToPostfix_eq_convertList]
  by_cases hp : getPrecedence o1 ≥ getPrecedence o2
  · simp [convertList, convertStep, ha, hb, hc, h1, h2, n1, n2, f1, f2, p1, p2, yields, hp]
  · simp [convertList, convertStep, ha, hb, hc, h1, h2, n1, n2, f1, f2, p1, p2, yields, hp]

/-- C19: for numbers `a`, `b`, `c` and operators `o1`, `o2`, the sequence
`a o1 b o2 c` converts to `a b o1 c o2` when the precedence of `o1` is at
least that of `o2`, and to `a b c o2 o1` when it is lower, with precedences 1
for `+ -`, 2 for `* /` and 3 for `^`; so operators of equal precedence, `^`
included, group from left to right. -/
theorem precedence_tie_break (a b c o1 o2 : String) (ha : isNumber a = true)
    (hb : isNumber b = true) (hc : isNumber c = true) (h1 : isOperator o1 = true)
    (h2 : isOperator o2 = true) :
    (getPrecedence o1 ≥ getPrecedence o2 →
      infixToPostfix [a, o1, b, o2, c] = .ok [a, b, o1, c, o2]) ∧
    (getPrecedence o1 < getPrecedence o2 →
      infixToPostfix [a, o1, b, o2, c] = .ok [a, b, c, o2, o1]) ∧
    getPrecedence "+" = 1 ∧ getPrecedence "-" = 1 ∧ getPrecedence "*" = 2 ∧
    getPrecedence "/" = 2 ∧ getPrecedence "^" = 3 ∧
    infixToPostfix [a, "^", b, "^", c] = .ok [a, b, "^", c, "^"] := by
  have h := convert_two_operators a b c o1 o2 ha hb hc h1 h2
  refine ⟨?_, ?_, by decide, by decide, by decide, by decide, by decide, ?_⟩
  · intro hp; rw [h, if_pos hp]
  · intro hp; rw [h, if_neg (by omega)]
  · have h' := convert_two_operators a b c "^" "^" ha hb hc (by decide) (by decide)
    rw [h', if_pos (le_refl _)]

/-- Witness of C19: `1 - 2 + 3` and `1 + 2 * 3`. -/
theorem precedence_tie_break_witness :
    infixToPostfix ["1", "-", "2", "+", "3"] = .ok ["1", "2", "-", "3", "+"] ∧
    infixToPostfix ["1", "+", "2", "*", "3"] = .ok ["1", "2", "3", "*", "+"] :=
  ⟨(precedence_tie_break "1" "2" "3" "-" "+" (by decide) (by decide) (by decide) (by decide)
      (by decide)).1 (by decide),
    (precedence_tie_break "1" "2" "3" "+" "*" (by decide) (by decide) (by decide) (by decide)
      (by decide)).2.1 (by decide)⟩

/-- C20: `infixToPostfix` fails with the empty-stack exception exactly when
some prefix of the tokens holds more `)` than `(`, and returns a postfix
sequence otherwise; so a sequence accepted by `validateExpression` converts
exactly when no prefix holds more `)` than `(`. -/
theorem convert_fails_iff (tokens : List String) :
    (infixToPostfix tokens = .error .emptyStack ↔
      ∃ n, (tokens.take n).count "(" < (tokens.take n).count ")") ∧
    ((¬∃ n, (tokens.take n).count "(" < (tokens.take n).count ")") →
      ∃ p, infixToPostfix tokens = .ok p) ∧
    (validateExpression tokens = .ok () →
      ((∃ p, infixToPostfix tokens = .ok p) ↔
        ∀ n, (tokens.take n).count ")" ≤ (tokens.take n).count "(")) := by
  have hok := infixToPostfix_ok_iff tokens
  refine ⟨?_, ?_, fun _ => hok⟩
  · constructor
    · intro h
      by_contra hne
      have : ∀ n, (tokens.take n).count ")" ≤ (tokens.take n).count "(" := by
        intro n
        by_contra hn
        exact hne ⟨n, by omega⟩
      obtain ⟨p, hp⟩ := hok.2 this
      rw [hp] at h
      cases h
    · rintro ⟨n, hn⟩
      cases h : infixToPostfix tokens with
      | error e => rw [infixToPostfix_error tokens e h]
      | ok p =>
        have := hok.1 ⟨p, h⟩ n
        omega
  · intro hne
    apply hok.2
    intro n
    by_contra hn
    exact hne ⟨n, by omega⟩

theorem evaluatePostfix_error (L : Libm) (tokens : List String) (e : CalcError)
    (h : evaluatePostfix L tokens = .error e) : e.isNamed := by
  rw [evaluatePostfix_eq_evaluateList] at h
  cases hl : evaluateList L tokens [] with
  | error e' =>
    rw [hl] at h
    cases h
    have := evaluateList_error L tokens [] e hl
    cases e <;> trivial
  | ok l =>
    rw [hl] at h
    match l with
    | [] => cases h; trivial
    | [v] => cases h
    | v :: w :: l => cases h; trivial

/-- C14: for a token sequence that `validateExpression` accepts,
`infixToPostfix` either fails with the empty-stack exception or returns a
postfix sequence on which `evaluatePostfix` returns one number or fails with
one of the named errors; an out-of-range access or an uninitialised result
never occurs. The cycle of `main` on such a line prints either the postfix
sequence and the result, or one message with a named error. -/
theorem pipeline_total (L : Libm) (tokens : List String)
    (hv : validateExpression tokens = .ok ()) :
    (infixToPostfix tokens = .error .emptyStack ∨
      ∃ p, infixToPostfix tokens = .ok p ∧
        ((∃ v, evaluatePostfix L p = .ok v) ∨
          ∃ e, evaluatePostfix L p = .error e ∧ e.isNamed)) ∧
    (∀ input : String, input ≠ "exit" → tokenize input = tokens → tokens ≠ [] →
      (∃ p v, mainCycle L input = .next [.postfixLine p, .result v]) ∨
        ∃ e, e.isNamed ∧ mainCycle L input = .next [.exception e]) := by
  have hpipe : infixToPostfix tokens = .error .emptyStack ∨
      ∃ p, infixToPostfix tokens = .ok p ∧
        ((∃ v, evaluatePostfix L p = .ok v) ∨
          ∃ e, evaluatePostfix L p = .error e ∧ e.isNamed) := by
    cases hc : infixToPostfix tokens with
    | error e => rw [infixToPostfix_error tokens e hc]; exact Or.inl rfl
    | ok p =>
      refine Or.inr ⟨p, rfl, ?_⟩
      cases he : evaluatePostfix L p with
      | error e => exact Or.inr ⟨e, rfl, evaluatePostfix_error L p e he⟩
      | ok v => exact Or.inl ⟨v, rfl⟩
  refine ⟨hpipe, ?_⟩
  intro input hexit htok hne
  have h1 : (input == "exit") = false := by simpa using hexit
  have h2 : input.data.isEmpty = false := by
    cases hd : input.data with
    | nil =>
      exfalso
      apply hne
      rw [← htok, tokenize, hd]
      rfl
    | cons c cs => rfl
  have h3 : tokens.isEmpty = false := by
    cases tokens with
    | nil => exact absurd rfl hne
    | cons t ts => rfl
  unfold mainCycle
  simp only [h1, h2, Bool.false_eq_true, if_false, htok, h3, hv]
  rcases hpipe with hc | ⟨p, hp, hev⟩
  · rw [hc]
    exact Or.inr ⟨.emptyStack, trivial, rfl⟩
  · rw [hp]
    rcases hev with ⟨v, hv'⟩ | ⟨e, he, hn⟩
    · simp only [hv']
      exact Or.inl ⟨p, v, rfl⟩
    · simp only [he]
      exact Or.inr ⟨e, hn, rfl⟩

/-- Witness of C14: `1 + 2`. -/
theorem pipeline_total_witness :
    validateExpression ["1", "+", "2"] = .ok () ∧
    (infixToPostfix ["1", "+", "2"] = .error .emptyStack ∨
      ∃ p, infixToPostfix ["1", "+", "2"] = .ok p ∧
        ((∃ v, evaluatePostfix sampleLibm p = .ok v) ∨
          ∃ e, evaluatePostfix sampleLibm p = .error e ∧ e.isNamed)) :=
  ⟨by decide, (pipeline_total sampleLibm ["1", "+", "2"] (by decide)).1⟩

/-! ## The stack is last in, first out -/

theorem Stack.pushAll_ofTopFirst {α : Type} (values : List α) :
    ∀ l : List α, (Stack.ofTopFirst l).pushAll values = Stack.ofTopFirst (values.reverse ++ l) := by
  induction values with
  | nil => intro l; rfl
  | cons v vs ih =>
    intro l
    rw [Stack.pushAll, List.foldl_cons, Stack.push_ofTopFirst]
    have := ih (v :: l)
    rw [Stack.pushAll] at this
    rw [this]
    simp

theorem Stack.popN_ofTopFirst {α : Type} (k : Nat) :
    ∀ l : List α, k ≤ l.length →
      (Stack.ofTopFirst l).popN k = .ok (l.take k, Stack.ofTopFirst (l.drop k)) := by
  induction k with
  | zero => intro l _; rfl
  | succ k ih =>
    intro l hk
    match l, hk with
    | v :: l, hk =>
      rw [Stack.popN, Stack.pop_ofTopFirst_cons]
      simp only [ih l (by simpa using hk), List.take_succ_cons, List.drop_succ_cons]

/-- C15: after `push` of `v1 .. vn` onto an empty stack, `size` is `n`, `top`
returns `vn`, `k ≤ n` successive calls of `pop` return `vn, ...` downwards and
leave `n - k` entries, `n` of them return all values in reverse order and
leave the empty stack, on which `pop` and `top` throw the empty-stack
exception; on any stack, `pop` and `top` throw exactly when `isEmpty` holds,
and a successful `pop` lowers `size` by one. -/
theorem stack_lifo {α : Type} (values : List α) :
    (Stack.empty.pushAll values).size = values.length ∧
    (∀ v, values.getLast? = some v → (Stack.empty.pushAll values).top = .ok v) ∧
    (∀ k, k ≤ values.length → ∃ s, (Stack.empty.pushAll values).popN k =
      .ok (values.reverse.take k, s) ∧ s.size = values.length - k) ∧
    (Stack.empty.pushAll values).popN values.length = .ok (values.reverse, Stack.empty) ∧
    (Stack.empty : Stack α).pop = .error .emptyStack ∧
    (Stack.empty : Stack α).top = .error .emptyStack ∧
    (∀ s : Stack α,
      ((∃ e, s.pop = .error e) ↔ s.isEmpty = true) ∧
      ((∃ e, s.top = .error e) ↔ s.isEmpty = true) ∧
      (s.isEmpty = true → s.pop = .error .emptyStack ∧ s.top = .error .emptyStack) ∧
      (∀ v s', s.pop = .ok (v, s') → s.top = .ok v ∧ s'.size + 1 = s.size)) := by
  have hpush : (Stack.empty : Stack α).pushAll values = Stack.ofTopFirst values.reverse := by
    rw [Stack.empty_eq, Stack.pushAll_ofTopFirst, List.append_nil]
  rw [hpush]
  refine ⟨by simp [Stack.size_ofTopFirst], ?_, ?_, ?_, rfl, rfl, ?_⟩
  · intro v hv
    have : values.reverse.head? = some v := by simpa using hv
    cases hr : values.reverse with
    | nil => rw [hr] at this; cases this
    | cons w l =>
      rw [hr] at this
      simp only [List.head?_cons, Option.some.injEq] at this
      rw [Stack.top_ofTopFirst_cons, this]
  · intro k hk
    refine ⟨Stack.ofTopFirst (values.reverse.drop k), ?_, ?_⟩
    · exact Stack.popN_ofTopFirst k values.reverse (by simpa using hk)
    · simp [Stack.size_ofTopFirst]
  · have := Stack.popN_ofTopFirst values.length values.reverse (by simp)
    rw [this]
    have hd : values.reverse.drop values.length = [] := by
      apply List.drop_eq_nil_of_le; simp
    have ht : values.reverse.take values.length = values.reverse := by
      apply List.take_of_length_le; simp
    rw [hd, ht, Stack.empty_eq]
  · intro s
    rw [Stack.eq_ofTopFirst s]
    cases s.list.nodes.reverse with
    | nil =>
      simp [Stack.pop_ofTopFirst_nil, Stack.top_ofTopFirst_nil, Stack.isEmpty_ofTopFirst_nil]
    | cons v l =>
      simp only [Stack.pop_ofTopFirst_cons, Stack.top_ofTopFirst_cons,
        Stack.isEmpty_ofTopFirst_cons, Stack.size_ofTopFirst]
      simp
      exact Stack.size_ofTopFirst l

/-! ## The tokenizer and blank lines -/

theorem tokenizeLoop_run (run : List Char) (hrun : ∀ c ∈ run, isspace c = false) :
    ∀ (rest cur : List Char),
      tokenizeLoop (run ++ rest) cur = tokenizeLoop rest (run.reverse ++ cur) := by
  induction run with
  | nil => intro rest cur; rfl
  | cons c run ih =>
    intro rest cur
    have hc : isspace c = false := hrun c (List.mem_cons_self _ _)
    rw [List.cons_append, tokenizeLoop]
    simp only [hc, Bool.false_eq_true, if_false]
    rw [ih (fun d hd => hrun d (List.mem_cons_of_mem _ hd))]
    simp

theorem tokenizeLoop_blanks (ws : List Char) (hws : ∀ c ∈ ws, isspace c = true)
    (rest : List Char) : tokenizeLoop (ws ++ rest) [] = tokenizeLoop rest [] := by
  induction ws with
  | nil => rfl
  | cons c ws ih =>
    have hc : isspace c = true := hws c (List.mem_cons_self _ _)
    rw [List.cons_append, tokenizeLoop]
    simp only [hc, if_true, List.isEmpty_nil]
    exact ih (fun d hd => hws d (List.mem_cons_of_mem _ hd))

theorem tokenizeLoop_flush (cur : List Char) (hcur : cur ≠ []) (rest : List Char)
    (hrest : rest = [] ∨ ∃ c cs, rest = c :: cs ∧ isspace c = true) :
    tokenizeLoop rest cur = String.mk cur.reverse :: tokenizeLoop rest [] := by
  have he : cur.isEmpty = false := by
    cases cur with
    | nil => exact absurd rfl hcur
    | cons _ _ => rfl
  rcases hrest with rfl | ⟨c, cs, rfl, hc⟩
  · simp [tokenizeLoop, he]
  · simp [tokenizeLoop, hc, he]

theorem tokenizeLoop_first (ws run rest : List Char) (hws : ∀ c ∈ ws, isspace c = true)
    (hne : run ≠ []) (hrun : ∀ c ∈ run, isspace c = false)
    (hrest : rest = [] ∨ ∃ c cs, rest = c :: cs ∧ isspace c = true) :
    tokenizeLoop (ws ++ run ++ rest) [] = String.mk run :: tokenizeLoop rest [] := by
  rw [List.append_assoc, tokenizeLoop_blanks ws hws, tokenizeLoop_run run hrun,
    List.append_nil, tokenizeLoop_flush run.reverse (by simpa using hne) rest hrest,
    List.reverse_reverse]

theorem tokenizeLoop_words (cs : List Char) :
    ∀ cur : List Char, (∀ c ∈ cur, isspace c = false) →
      ∀ t ∈ tokenizeLoop cs cur, IsWord t := by
  induction cs with
  | nil =>
    intro cur hcur t ht
    cases cur with
    | nil => simp [tokenizeLoop] at ht
    | cons d cur =>
      simp only [tokenizeLoop, List.isEmpty_cons, Bool.false_eq_true, if_false,
        List.mem_singleton] at ht
      subst ht
      refine ⟨by simp, ?_⟩
      intro c hc
      have hc2 : c ∈ d :: cur := by
        simp at hc ⊢
        tauto
      exact hcur c hc2
  | cons c cs ih =>
    intro cur hcur t ht
    rw [tokenizeLoop] at ht
    by_cases hc : isspace c = true
    · simp only [hc, if_true] at ht
      cases cur with
      | nil =>
        simp only [List.isEmpty_nil, if_true] at ht
        exact ih [] (by simp) t ht
      | cons d cur =>
        simp only [List.isEmpty_cons, Bool.false_eq_true, if_false, List.mem_cons] at ht
        rcases ht with rfl | ht
        · refine ⟨by simp, ?_⟩
          intro c' hc'
          have hc2 : c' ∈ d :: cur := by
            simp at hc' ⊢
            tauto
          exact hcur c' hc2
        · exact ih [] (by simp) t ht
    · simp only [hc, Bool.false_eq_true, if_false] at ht
      refine ih (c :: cur) ?_ t ht
      intro d hd
      rcases List.mem_cons.1 hd with rfl | hd
      · simpa using hc
      · exact hcur d hd

theorem intercalate_go_data (sep : String) (ts : List String) :
    ∀ acc : String, (String.intercalate.go acc sep ts).data =
      acc.data ++ ts.flatMap (fun t => sep.data ++ t.data) := by
  induction ts with
  | nil => intro acc; simp [String.intercalate.go]
  | cons t ts ih =>
    intro acc
    rw [String.intercalate.go, ih]
    simp [String.data_append]

theorem tokenizeLoop_joined (ts : List String) :
    ∀ t : String, IsWord t → (∀ u ∈ ts, IsWord u) →
      tokenizeLoop (t.data ++ ts.flatMap (fun u => ' ' :: u.data)) [] = t :: ts := by
  induction ts with
  | nil =>
    intro t ht _
    have := tokenizeLoop_first [] t.data [] (by simp) ht.1 ht.2 (Or.inl rfl)
    simpa [tokenizeLoop] using this
  | cons u us ih =>
    intro t ht hts
    have hu := hts u (List.mem_cons_self _ _)
    have hus : ∀ v ∈ us, IsWord v := fun v hv => hts v (List.mem_cons_of_mem _ hv)
    have h1 := tokenizeLoop_first [] t.data
      (' ' :: (u.data ++ us.flatMap (fun u => ' ' :: u.data))) (by simp)
      ht.1 ht.2 (Or.inr ⟨' ', _, rfl, by decide⟩)
    have h2 := tokenizeLoop_blanks [' '] (by simp; decide)
      (u.data ++ us.flatMap (fun u => ' ' :: u.data))
    have h3 := ih u hu hus
    simp only [List.nil_append, List.singleton_append] at h1 h2
    rw [List.flatMap_cons, List.cons_append, h1, h2, h3]

/-- C16: every token `tokenize` returns is non-empty and free of whitespace; a
line of whitespace only, or an empty one, gives no token; a line that is
whitespace, then a non-empty run without whitespace, then nothing or
something that starts with whitespace, gives that run followed by the tokens
of the remainder; and non-empty whitespace-free strings joined by single
spaces are returned as they were. -/
theorem tokenize_runs (line : String) :
    (∀ t ∈ tokenize line, IsWord t) ∧
    ((∀ c ∈ line.data, isspace c = true) → tokenize line = []) ∧
    (∀ ws run rest : List Char, line.data = ws ++ run ++ rest →
      (∀ c ∈ ws, isspace c = true) → run ≠ [] → (∀ c ∈ run, isspace c = false) →
      (rest = [] ∨ ∃ c cs, rest = c :: cs ∧ isspace c = true) →
      tokenize line = String.mk run :: tokenize (String.mk rest)) ∧
    (∀ ts : List String, (∀ t ∈ ts, IsWord t) → tokenize (" ".intercalate ts) = ts) := by
  refine ⟨?_, ?_, ?_, ?_⟩
  · exact tokenizeLoop_words line.data [] (by simp)
  · intro h
    have := tokenizeLoop_blanks line.data h []
    rw [List.append_nil] at this
    rw [tokenize, this]
    rfl
  · intro ws run rest hline hws hne hrun hrest
    rw [tokenize, hline, tokenizeLoop_first ws run rest hws hne hrun hrest]
    rfl
  · intro ts hts
    cases ts with
    | nil => rfl
    | cons t ts =>
      rw [tokenize, String.intercalate, intercalate_go_data]
      exact tokenizeLoop_joined ts t (hts t (List.mem_cons_self _ _))
        (fun u hu => hts u (List.mem_cons_of_mem _ hu))

/-- C17, as stated, fails: on the line of one space the cycle prints the
empty-expression message. -/
theorem blank_line_counterexample :
    (∀ c ∈ (" " : String).data, isspace c = true) ∧
    ∀ L : Libm, mainCycle L " " = .next [.emptyExpression] :=
  ⟨by decide, fun _ => rfl⟩

/-- C17, amended: on the empty line the cycle prints nothing and goes on to
the next line; on a non-empty line of whitespace only it prints the
empty-expression message, nothing else, and goes on to the next line. -/
theorem blank_line_cycle (L : Libm) (input : String) :
    (input.data = [] → mainCycle L input = .next []) ∧
    (input.data ≠ [] → (∀ c ∈ input.data, isspace c = true) →
      mainCycle L input = .next [.emptyExpression]) := by
  constructor
  · intro h
    have : input = "" := by
      cases input with
      | mk data => simp at h; subst h; rfl
    subst this
    rfl
  · intro hne hws
    have hexit : (input == "exit") = false := by
      rw [beq_eq_false_iff_ne]
      intro h
      subst h
      have := hws 'e' (by decide)
      revert this
      decide
    have hemp : input.data.isEmpty = false := by
      cases hd : input.data with
      | nil => exact absurd hd hne
      | cons _ _ => rfl
    have htok : tokenize input = [] := by
      have := tokenizeLoop_blanks input.data hws []
      rw [List.append_nil] at this
      rw [tokenize, this]
      rfl
    unfold mainCycle
    simp [hexit, hemp, htok]

/-! ## Fully parenthesized expressions -/

theorem convertList_cons (token : String) (rest output l : List String) :
    convertList (token :: rest) output l =
      match convertStep token output l with
      | .error e => .error e
      | .ok (output, l) => convertList rest output l := rfl

theorem convertStep_number {n : String} (hn : isNumber n = true) (output l : List String) :
    convertStep n output l = .ok (output ++ [n], l) := by
  simp [convertStep, hn]

theorem convertStep_function {f : String} (hf : isFunction f = true) (output l : List String) :
    convertStep f output l = .ok (output, f :: l) := by
  simp [convertStep, hf, isNumber_false_of_isFunction hf]

theorem convertStep_open (output l : List String) :
    convertStep "(" output l = .ok (output, "(" :: l) := by
  simp [convertStep, show isNumber "(" = false by decide, show isFunction "(" = false by decide]

theorem convertStep_operator_on_open {op : String} (ho : isOperator op = true)
    (output l : List String) :
    convertStep op output ("(" :: l) = .ok (output, op :: "(" :: l) := by
  have hp := ne_paren_of_isOperator ho
  simp [convertStep, ho, isNumber_false_of_isOperator ho, isFunction_false_of_isOperator ho,
    hp.1, hp.2, yields, show isOperator "(" = false by decide]

theorem convertStep_close_operator {op : String} (ho : isOperator op = true)
    (output l : List String) (hl : TopNotFunction l) :
    convertStep ")" output (op :: "(" :: l) = .ok (output ++ [op], l) := by
  have hp := ne_paren_of_isOperator ho
  have e1 : isNumber ")" = false := by decide
  have e2 : isFunction ")" = false := by decide
  have e3 : ((")" : String) == "(") = false := by decide
  unfold convertStep
  simp only [e1, e2, e3, Bool.false_eq_true, if_false, beq_self_eq_true, if_true]
  have hd : (op :: "(" :: l).dropWhile (fun t => t != "(") = "(" :: l := by
    simp [List.dropWhile_cons, hp.1]
  have ht : (op :: "(" :: l).takeWhile (fun t => t != "(") = [op] := by
    simp [List.takeWhile_cons, hp.1]
  rw [hd, ht]
  cases l with
  | nil => rfl
  | cons f below =>
    simp only [hl f below rfl, Bool.false_eq_true, if_false]

theorem convertStep_close_function {f : String} (hf : isFunction f = true)
    (output l : List String) :
    convertStep ")" output ("(" :: f :: l) = .ok (output ++ [f], l) := by
  have e1 : isNumber ")" = false := by decide
  have e2 : isFunction ")" = false := by decide
  have e3 : ((")" : String) == "(") = false := by decide
  unfold convertStep
  simp only [e1, e2, e3, Bool.false_eq_true, if_false, beq_self_eq_true, if_true]
  simp [List.dropWhile_cons, List.takeWhile_cons, hf]

theorem convertList_render (e : Expr) (he : e.WellFormed) :
    ∀ (rest output l : List String), TopNotFunction l →
      convertList (e.render ++ rest) output l =
        convertList rest (output ++ e.postorder) l := by
  induction e with
  | number n =>
    intro rest output l _
    have hn : isNumber n = true := (isNumber_iff n).2 he
    simp only [Expr.render, Expr.postorder, List.singleton_append, convertList_cons,
      convertStep_number hn]
  | binary op a b iha ihb =>
    intro rest output l hl
    obtain ⟨hop, ha, hb⟩ := he
    have ho : isOperator op = true := (isOperator_iff_isOp op).2 hop
    have hopen : TopNotFunction ("(" :: l) := by
      intro t below h
      cases h
      decide
    have hoper : TopNotFunction (op :: "(" :: l) := by
      intro t below h
      cases h
      exact isFunction_false_of_isOperator ho
    simp only [Expr.render, Expr.postorder, List.singleton_append, List.cons_append,
      List.nil_append, List.append_assoc, convertList_cons, convertStep_open]
    rw [iha ha _ _ _ hopen]
    simp only [List.cons_append, convertList_cons, convertStep_operator_on_open ho]
    rw [ihb hb _ _ _ hoper]
    simp only [List.cons_append, List.nil_append, convertList_cons,
      convertStep_close_operator ho _ _ hl, List.append_assoc]
  | call f a iha =>
    intro rest output l _
    obtain ⟨hfn, ha⟩ := he
    have hf : isFunction f = true := (isFunction_iff_isFn f).2 hfn
    have hopen : TopNotFunction ("(" :: f :: l) := by
      intro t below h
      cases h
      decide
    simp only [Expr.render, Expr.postorder, List.cons_append, List.nil_append,
      List.append_assoc, convertList_cons, convertStep_function hf, convertStep_open]
    rw [iha ha _ _ _ hopen]
    simp only [List.singleton_append, convertList_cons, convertStep_close_function hf,
      List.append_assoc]


theorem depth_append (a b : List String) : depth (a ++ b) = depth a + depth b := by
  induction a with
  | nil => simp [depth]
  | cons t a ih =>
    rw [List.cons_append, depth, depth, ih, add_assoc]

theorem not_isOp_of_digitOnly {n : String} (h : DigitOnly n) : ¬IsOp n := by
  intro ho
  have h1 := (isNumber_iff n).2 h
  have h2 := (isOperator_iff_isOp n).2 ho
  rw [isNumber_false_of_isOperator h2] at h1
  cases h1

theorem not_isFn_of_digitOnly {n : String} (h : DigitOnly n) : ¬IsFn n := by
  intro hf
  have h1 := (isNumber_iff n).2 h
  have h2 := (isFunction_iff_isFn n).2 hf
  rw [isNumber_false_of_isFunction h2] at h1
  cases h1

theorem not_isOp_of_isFn {f : String} (h : IsFn f) : ¬IsOp f := by
  intro ho
  have h1 := (isFunction_iff_isFn f).2 h
  have h2 := (isOperator_iff_isOp f).2 ho
  rw [isFunction_false_of_isOperator h2] at h1
  cases h1

theorem delta_eq_zero {t : String} (h1 : t ≠ "(") (h2 : t ≠ ")") : delta t = 0 := by
  simp [delta, h1, h2]

theorem tokenCheck_plain (f : Bool) (t : String) (next : Option String) (hl : Legal t)
    (ho : ¬IsOp t) (hf : ¬IsFn t) : tokenCheck f t next = none := by
  rw [tokenCheck_eq_none]
  exact ⟨hl, fun h => absurd h ho, fun h => absurd h hf⟩

theorem render_head (e : Expr) (he : e.WellFormed) :
    ∃ u tail, e.render = u :: tail ∧ ¬IsOp u ∧ u ≠ ")" := by
  cases e with
  | number n =>
    refine ⟨n, [], rfl, not_isOp_of_digitOnly he, ?_⟩
    exact (ne_paren_of_isNumber ((isNumber_iff n).2 he)).2
  | binary op a b => exact ⟨"(", _, rfl, by decide, by decide⟩
  | call f a =>
    refine ⟨f, _, rfl, not_isOp_of_isFn he.1, ?_⟩
    exact (ne_paren_of_isFunction ((isFunction_iff_isFn f).2 he.1)).2

theorem scan_cons (f : Bool) (t : String) (rest : List String) :
    scan f (t :: rest) =
      match tokenCheck f t rest.head? with
      | some e => some e
      | none => scan false rest := rfl

theorem scan_render (e : Expr) (he : e.WellFormed) :
    ∀ (f : Bool) (rest : List String), scan f (e.render ++ rest) = scan false rest := by
  induction e with
  | number n =>
    intro f rest
    have hn := (isNumber_iff n).2 he
    simp only [Expr.render, List.singleton_append, scan_cons,
      tokenCheck_plain f n _ (Or.inl he) (not_isOp_of_digitOnly he) (not_isFn_of_digitOnly he)]
  | binary op a b iha ihb =>
    intro f rest
    obtain ⟨hop, ha, hb⟩ := he
    obtain ⟨u, tail, hu, hu1, hu2⟩ := render_head b hb
    have hopen : ∀ g next, tokenCheck g "(" next = none := fun g next =>
      tokenCheck_plain g "(" next (by decide) (by decide) (by decide)
    have hclose : ∀ g next, tokenCheck g ")" next = none := fun g next =>
      tokenCheck_plain g ")" next (by decide) (by decide) (by decide)
    have hcheck : tokenCheck false op (some u) = none := by
      rw [tokenCheck_eq_none]
      refine ⟨Or.inr (Or.inl hop), fun _ => ⟨rfl, u, rfl, hu1, hu2⟩, fun h => ?_⟩
      exact absurd hop (not_isOp_of_isFn h)
    simp only [Expr.render, List.singleton_append, List.cons_append, List.nil_append,
      List.append_assoc, scan_cons, hopen]
    rw [iha ha false, scan_cons]
    have hhead : (b.render ++ ")" :: rest).head? = some u := by rw [hu]; rfl
    rw [hhead, hcheck]
    simp only
    rw [ihb hb false, scan_cons, hclose]
  | call fn a iha =>
    intro f rest
    obtain ⟨hfn, ha⟩ := he
    have hopen : ∀ g next, tokenCheck g "(" next = none := fun g next =>
      tokenCheck_plain g "(" next (by decide) (by decide) (by decide)
    have hclose : ∀ g next, tokenCheck g ")" next = none := fun g next =>
      tokenCheck_plain g ")" next (by decide) (by decide) (by decide)
    have hcheck : tokenCheck f fn (some "(") = none := by
      rw [tokenCheck_eq_none]
      exact ⟨Or.inr (Or.inr (Or.inl hfn)), fun h => absurd h (not_isOp_of_isFn hfn),
        fun _ => rfl⟩
    simp only [Expr.render, List.cons_append, List.nil_append, List.append_assoc, scan_cons,
      List.head?_cons, hcheck, hopen]
    rw [iha ha false, scan_cons, hclose]

theorem depth_render (e : Expr) (he : e.WellFormed) : depth e.render = 0 := by
  induction e with
  | number n =>
    have hp := ne_paren_of_isNumber ((isNumber_iff n).2 he)
    simp [Expr.render, depth, delta_eq_zero hp.1 hp.2]
  | binary op a b iha ihb =>
    obtain ⟨hop, ha, hb⟩ := he
    have hp := ne_paren_of_isOperator ((isOperator_iff_isOp op).2 hop)
    have d1 : delta "(" = 1 := by decide
    have d2 : delta ")" = -1 := by decide
    simp [Expr.render, depth, depth_append, iha ha, ihb hb, delta_eq_zero hp.1 hp.2, d1, d2]
  | call f a iha =>
    obtain ⟨hfn, ha⟩ := he
    have hp := ne_paren_of_isFunction ((isFunction_iff_isFn f).2 hfn)
    have d1 : delta "(" = 1 := by decide
    have d2 : delta ")" = -1 := by decide
    simp [Expr.render, depth, depth_append, iha ha, delta_eq_zero hp.1 hp.2, d1, d2]

/-- C18: for every expression tree over digit-only numbers, the five
operators and the two functions, the fully parenthesized rendering passes
`validateExpression`, and `infixToPostfix` turns it into the post-order
traversal of the tree. -/
theorem shunting_yard_parenthesized (e : Expr) (he : e.WellFormed) :
    validateExpression e.render = .ok () ∧ infixToPostfix e.render = .ok e.postorder := by
  constructor
  · rw [validateExpression_eq_scan]
    have h := scan_render e he true []
    rw [List.append_nil] at h
    rw [h, depth_render e he]
    rfl
  · rw [infixToPostfix_eq_convertList]
    have h := convertList_render e he [] [] [] (fun t below h => by cases h)
    rw [List.append_nil] at h
    rw [h]
    simp [convertList]

/-- Witness of C18: the tree of `( 3 + sin ( 4 ) )`. -/
theorem shunting_yard_parenthesized_witness :
    (Expr.binary "+" (.number "3") (.call "sin" (.number "4"))).WellFormed ∧
    validateExpression ["(", "3", "+", "sin", "(", "4", ")", ")"] = .ok () ∧
    infixToPostfix ["(", "3", "+", "sin", "(", "4", ")", ")"] = .ok ["3", "4", "sin", "+"] :=
  have hw : (Expr.binary "+" (.number "3") (.call "sin" (.number "4"))).WellFormed :=
    ⟨by decide, (by decide : DigitOnly "3"), by decide, (by decide : DigitOnly "4")⟩
  ⟨hw, shunting_yard_parenthesized _ hw⟩

/-! ## The output of the converter is a permutation of its input -/

theorem count_takeWhile_add_dropWhile (p : String → Bool) (l : List String) (a : String) :
    (l.takeWhile p).count a + (l.dropWhile p).count a = l.count a := by
  conv_rhs => rw [← List.takeWhile_append_dropWhile p l]
  rw [List.count_append]

theorem filter_isNumber_eq_nil {l : List String} (h : ∀ t ∈ l, isNumber t = false) :
    l.filter isNumber = [] := by
  rw [List.filter_eq_nil_iff]
  intro t ht
  simp [h t ht]

theorem legal_cases {t : String} (h : Legal t) :
    isNumber t = true ∨ isOperator t = true ∨ isFunction t = true ∨ t = "(" ∨ t = ")" := by
  rcases h with h | h | h | h | h
  · exact Or.inl ((isNumber_iff t).2 h)
  · exact Or.inr (Or.inl ((isOperator_iff_isOp t).2 h))
  · exact Or.inr (Or.inr (Or.inl ((isFunction_iff_isFn t).2 h)))
  · exact Or.inr (Or.inr (Or.inr (Or.inl h)))
  · exact Or.inr (Or.inr (Or.inr (Or.inr h)))

theorem convertStep_number_keeps {token : String} (hn : isNumber token = true)
    (output l : List String) (hs : SoundState output l) :
    SoundState (output ++ [token]) l ∧
    (∀ a, a ≠ "(" → a ≠ ")" →
      (output ++ [token]).count a + l.count a = output.count a + l.count a + [token].count a) ∧
    (output ++ [token]).filter isNumber = output.filter isNumber ++ [token].filter isNumber := by
  refine ⟨⟨hs.1, ?_⟩, ?_, by simp⟩
  · intro t ht
    rcases List.mem_append.1 ht with ht | ht
    · exact hs.2 t ht
    · rw [List.mem_singleton.1 ht]
      exact ne_paren_of_isNumber hn
  · intro a _ _
    rw [List.count_append]
    omega

theorem convertStep_push_keeps {token : String} (hn : isNumber token = false)
    (hp : token ≠ ")") (output l : List String) (hs : SoundState output l) :
    SoundState output (token :: l) ∧
    (∀ a, a ≠ "(" → a ≠ ")" →
      output.count a + (token :: l).count a = output.count a + l.count a + [token].count a) ∧
    output.filter isNumber = output.filter isNumber ++ [token].filter isNumber := by
  refine ⟨⟨?_, hs.2⟩, ?_, by simp [hn]⟩
  · intro t ht
    rcases List.mem_cons.1 ht with ht | ht
    · rw [ht]; exact ⟨hp, hn⟩
    · exact hs.1 t ht
  · intro a _ _
    have : (token :: l).count a = l.count a + [token].count a := by
      rw [← List.singleton_append, List.count_append]
      omega
    omega

theorem convertStep_pop_keeps (p : String → Bool) (output l : List String)
    (hs : SoundState output l) (hp : ∀ t ∈ l, p t = true → t ≠ "(") :
    SoundState (output ++ l.takeWhile p) (l.dropWhile p) ∧
    (∀ a, (output ++ l.takeWhile p).count a + (l.dropWhile p).count a =
      output.count a + l.count a) ∧
    (output ++ l.takeWhile p).filter isNumber = output.filter isNumber := by
  have hsub : ∀ t ∈ l.takeWhile p, t ∈ l := fun t ht => (List.takeWhile_sublist p).subset ht
  have hsub' : ∀ t ∈ l.dropWhile p, t ∈ l := fun t ht => (List.dropWhile_sublist p).subset ht
  refine ⟨⟨fun t ht => hs.1 t (hsub' t ht), ?_⟩, ?_, ?_⟩
  · intro t ht
    rcases List.mem_append.1 ht with ht | ht
    · exact hs.2 t ht
    · exact ⟨hp t (hsub t ht) (List.mem_takeWhile_imp ht), (hs.1 t (hsub t ht)).1⟩
  · intro a
    rw [List.count_append, ← count_takeWhile_add_dropWhile p l a]
    omega
  · rw [List.filter_append,
      filter_isNumber_eq_nil (fun t ht => (hs.1 t (hsub t ht)).2), List.append_nil]

theorem convertStep_keeps (token : String) (output l output' l' : List String)
    (h : convertStep token output l = .ok (output', l')) (hleg : Legal token)
    (hs : SoundState output l) :
    SoundState output' l' ∧
    (∀ a, a ≠ "(" → a ≠ ")" →
      output'.count a + l'.count a = output.count a + l.count a + [token].count a) ∧
    output'.filter isNumber = output.filter isNumber ++ [token].filter isNumber := by
  by_cases hn : isNumber token = true
  · rw [convertStep_number hn] at h
    simp only [Except.ok.injEq, Prod.mk.injEq] at h
    obtain ⟨rfl, rfl⟩ := h
    exact convertStep_number_keeps hn output l hs
  have hn' : isNumber token = false := by simpa using hn
  by_cases hf : isFunction token = true
  · rw [convertStep_function hf] at h
    simp only [Except.ok.injEq, Prod.mk.injEq] at h
    obtain ⟨rfl, rfl⟩ := h
    exact convertStep_push_keeps hn' (ne_paren_of_isFunction hf).2 output l hs
  have hf' : isFunction token = false := by simpa using hf
  by_cases hopen : token = "("
  · subst hopen
    rw [convertStep_open] at h
    simp only [Except.ok.injEq, Prod.mk.injEq] at h
    obtain ⟨rfl, rfl⟩ := h
    exact convertStep_push_keeps hn' (by decide) output l hs
  have hopen' : (token == "(") = false := by simpa using hopen
  by_cases hclose : token = ")"
  · subst hclose
    have hpop := convertStep_pop_keeps (fun t => t != "(") output l hs
      (fun t _ ht => by simpa using ht)
    have hc := count_paren_dropWhile l
    unfold convertStep at h
    simp only [hn', hf', hopen', Bool.false_eq_true, if_false, beq_self_eq_true, if_true] at h
    obtain ⟨⟨hl1, ho1⟩, hcount, hfilter⟩ := hpop
    have hzero : ∀ a : String, a ≠ ")" → [(")" : String)].count a = 0 := by
      intro a ha
      rw [List.count_eq_zero]
      simpa using ha
    split at h
    · cases h
    · rename_i q hd
      rw [hd] at hc hl1 hcount
      simp only [Except.ok.injEq, Prod.mk.injEq] at h
      obtain ⟨rfl, rfl⟩ := h
      refine ⟨⟨by simp, ho1⟩, ?_, by rw [hfilter]; simp [hn']⟩
      intro a ha1 ha2
      have h1 := hcount a
      have h2 : [q].count a = 0 := by
        rw [List.count_eq_zero, hc.1]
        simpa using ha1
      rw [hzero a ha2]
      simp only [List.count_nil]
      omega
    · rename_i q f below hd
      rw [hd] at hc hl1 hcount
      have hq : ∀ a : String, a ≠ "(" → (q :: f :: below).count a = (f :: below).count a := by
        intro a ha
        rw [hc.1, List.count_cons_of_ne ha]
      split at h
      · rename_i hff
        simp only [Except.ok.injEq, Prod.mk.injEq] at h
        obtain ⟨rfl, rfl⟩ := h
        have hfp := ne_paren_of_isFunction hff
        refine ⟨⟨?_, ?_⟩, ?_, ?_⟩
        · intro t ht
          exact hl1 t (List.mem_cons_of_mem _ (List.mem_cons_of_mem _ ht))
        · intro t ht
          rcases List.mem_append.1 ht with ht | ht
          · exact ho1 t ht
          · rw [List.mem_singleton.1 ht]; exact hfp
        · intro a ha1 ha2
          have h1 := hcount a
          rw [hq a ha1] at h1
          have h3 : (f :: below).count a = [f].count a + below.count a := by
            rw [← List.singleton_append, List.count_append]
          rw [hzero a ha2, List.count_append]
          omega
        · rw [List.filter_append, hfilter]
          simp [isNumber_false_of_isFunction hff, hn']
      · simp only [Except.ok.injEq, Prod.mk.injEq] at h
        obtain ⟨rfl, rfl⟩ := h
        refine ⟨⟨?_, ho1⟩, ?_, by rw [hfilter]; simp [hn']⟩
        · intro t ht
          exact hl1 t (List.mem_cons_of_mem _ ht)
        · intro a ha1 ha2
          have h1 := hcount a
          rw [hq a ha1] at h1
          rw [hzero a ha2]
          omega
  have hclose' : (token == ")") = false := by simpa using hclose
  by_cases ho : isOperator token = true
  · have hpop := convertStep_pop_keeps (yields token) output l hs (fun t _ ht => by
      have hop : isOperator t = true := by
        unfold yields at ht
        simp only [Bool.and_eq_true] at ht
        exact ht.1
      exact (ne_paren_of_isOperator hop).1)
    unfold convertStep at h
    simp only [hn', hf', hopen', hclose', ho, Bool.false_eq_true, if_false, if_true,
      Except.ok.injEq, Prod.mk.injEq] at h
    obtain ⟨rfl, rfl⟩ := h
    obtain ⟨hs1, hcount, hfilter⟩ := hpop
    obtain ⟨hs2, hcount2, hfilter2⟩ :=
      convertStep_push_keeps hn' hclose (output ++ l.takeWhile (yields token))
        (l.dropWhile (yields token)) hs1
    refine ⟨hs2, ?_, ?_⟩
    · intro a ha1 ha2
      rw [hcount2 a ha1 ha2, hcount a]
    · rw [hfilter2, hfilter]
  · exfalso
    rcases legal_cases hleg with h1 | h1 | h1 | h1 | h1
    · exact hn h1
    · exact ho h1
    · exact hf h1
    · exact hopen h1
    · exact hclose h1

theorem convertList_keeps (tokens : List String) :
    ∀ (output l output' l' : List String),
      convertList tokens output l = .ok (output', l') → AllLegal tokens →
      SoundState output l →
      SoundState output' l' ∧
      (∀ a, a ≠ "(" → a ≠ ")" →
        output'.count a + l'.count a = output.count a + l.count a + tokens.count a) ∧
      output'.filter isNumber = output.filter isNumber ++ tokens.filter isNumber ∧
      (l'.count "(" : Int) = l.count "(" + depth tokens := by
  induction tokens with
  | nil =>
    intro output l output' l' h _ hs
    simp only [convertList, Except.ok.injEq, Prod.mk.injEq] at h
    obtain ⟨rfl, rfl⟩ := h
    exact ⟨hs, by simp, by simp, by simp [depth]⟩
  | cons token rest ih =>
    intro output l output' l' h hleg hs
    rw [convertList_cons] at h
    cases hstep : convertStep token output l with
    | error e => rw [hstep] at h; cases h
    | ok r =>
      obtain ⟨o1, l1⟩ := r
      rw [hstep] at h
      simp only at h
      obtain ⟨hs1, hcount1, hfilter1⟩ :=
        convertStep_keeps token output l o1 l1 hstep (hleg token (List.mem_cons_self _ _)) hs
      have hopen1 := convertStep_count token output l o1 l1 hstep
      obtain ⟨hs2, hcount2, hfilter2, hopen2⟩ :=
        ih o1 l1 output' l' h (fun t ht => hleg t (List.mem_cons_of_mem _ ht)) hs1
      refine ⟨hs2, ?_, ?_, ?_⟩
      · intro a ha1 ha2
        have h3 : (token :: rest).count a = [token].count a + rest.count a := by
          rw [← List.singleton_append, List.count_append]
        rw [hcount2 a ha1 ha2, hcount1 a ha1 ha2, h3]
        omega
      · rw [hfilter2, hfilter1, List.append_assoc, ← List.filter_append,
          List.singleton_append]
      · rw [hopen2, hopen1, depth]
        omega

/-- C21: when `validateExpression` accepts the tokens and `infixToPostfix`
returns `p`, then `p` holds neither `(` nor `)`, is a permutation of the
tokens without their parentheses, and lists the number tokens in the order
of the input. -/
theorem output_is_permutation (tokens p : List String)
    (hv : validateExpression tokens = .ok ()) (hc : infixToPostfix tokens = .ok p) :
    "(" ∉ p ∧ ")" ∉ p ∧ p.Perm (tokens.filter notParen) ∧
    p.filter isNumber = tokens.filter isNumber := by
  obtain ⟨hnone, hbal⟩ := (validate_ok_iff tokens).1 hv
  have hleg : AllLegal tokens := ((no_violation_iff tokens).1 hnone).1
  have hdepth : depth tokens = 0 := (depth_eq_zero_iff tokens).2 hbal
  rw [infixToPostfix_eq_convertList] at hc
  cases hl : convertList tokens [] [] with
  | error e => rw [hl] at hc; cases hc
  | ok r =>
    obtain ⟨o, l⟩ := r
    rw [hl] at hc
    simp only [Except.ok.injEq] at hc
    subst hc
    obtain ⟨⟨hl1, ho1⟩, hcount, hfilter, hopen⟩ :=
      convertList_keeps tokens [] [] o l hl hleg ⟨by simp, by simp⟩
    have hopenl : "(" ∉ l := by
      rw [← List.count_eq_zero]
      simp only [List.count_nil, Int.Nat.cast_ofNat_Int, hdepth, add_zero] at hopen
      exact_mod_cast hopen
    have h1 : "(" ∉ o ++ l := by
      intro h
      rcases List.mem_append.1 h with h | h
      · exact (ho1 _ h).1 rfl
      · exact hopenl h
    have h2 : ")" ∉ o ++ l := by
      intro h
      rcases List.mem_append.1 h with h | h
      · exact (ho1 _ h).2 rfl
      · exact (hl1 _ h).1 rfl
    refine ⟨h1, h2, ?_, ?_⟩
    · rw [List.perm_iff_count]
      intro a
      by_cases ha : notParen a = true
      · have ha' : a ≠ "(" ∧ a ≠ ")" := by simpa [notParen] using ha
        rw [List.count_filter ha, List.count_append, hcount a ha'.1 ha'.2]
        simp
      · have hz : (tokens.filter notParen).count a = 0 := by
          rw [List.count_eq_zero]
          intro hm
          exact ha (List.mem_filter.1 hm).2
        have ha' : a = "(" ∨ a = ")" := by
          simp only [notParen, Bool.and_eq_true, bne_iff_ne, ne_eq, not_and, not_not] at ha
          by_cases h : a = "("
          · exact Or.inl h
          · exact Or.inr (ha h)
        rw [hz, List.count_eq_zero]
        rcases ha' with rfl | rfl
        · exact h1
        · exact h2
    · rw [List.filter_append, hfilter,
        filter_isNumber_eq_nil (fun t ht => (hl1 t ht).2)]
      simp

/-- Witness of C21: `( 1 + 2 ) * sin ( 3 )`. -/
theorem output_is_permutation_witness :
    validateExpression ["(", "1", "+", "2", ")", "*", "sin", "(", "3", ")"] = .ok () ∧
    infixToPostfix ["(", "1", "+", "2", ")", "*", "sin", "(", "3", ")"] =
      .ok ["1", "2", "+", "3", "sin", "*"] ∧
    ["1", "2", "+", "3", "sin", "*"].Perm
      (["(", "1", "+", "2", ")", "*", "sin", "(", "3", ")"].filter notParen) ∧
    ["1", "2", "+", "3", "sin", "*"].filter isNumber =
      ["(", "1", "+", "2", ")", "*", "sin", "(", "3", ")"].filter isNumber :=
  have hv : validateExpression ["(", "1", "+", "2", ")", "*", "sin", "(", "3", ")"] = .ok () := by
    decide
  have hc : infixToPostfix ["(", "1", "+", "2", ")", "*", "sin", "(", "3", ")"] =
      .ok ["1", "2", "+", "3", "sin", "*"] := by decide
  have h := output_is_permutation _ _ hv hc
  ⟨hv, hc, h.2.2.1, h.2.2.2⟩

end Calc
